import Mathlib

/-!
Verification of the `bitrust` bencode codec (`src/bencode/src`).

Bytes are modelled as `Nat` (ASCII codes), byte buffers as `List Nat`.
The deserializer's input cursor (`read.rs`, `SliceRead`) is modelled two
ways: the stateful `SliceRead` structure with an explicit index (used for
the claims about `next_bytes` itself), and — inside the parsers — as the
list of bytes that remain, which is `slice.drop index`.  Every parser from
`de.rs` becomes a function `List Nat → Except Error (α × List Nat)`
returning the value and the remaining input.
-/

namespace Bitrust

/-- The error enum of `error.rs`.  The three final variants
(`InvalidUnicodeCodePoint`, `ExpectedFloat`, `InvalidUTF8`) are *not*
declared in `error.rs` but are referenced by `de.rs` (`parse_string`,
`parse_float`) and `ser.rs` (`to_string`); they are included here so that
those functions can be embedded. -/
inductive Error where
  | Message (s : String)
  | ExpectedInteger
  | ExpectedUnsignedInteger
  | IntegerOverflow
  | ExpectedStringIntegerLength
  | ParseStringIntegerLengthError
  | ExpectedList
  | ExpectedListEnd
  | ExpectedDictionary
  | ExpectedDictionaryEnd
  | ExpectedDictionaryKeyString
  | UnknownType
  | TrailingCharacters
  | EOF
  | InvalidUnicodeCodePoint
  | ExpectedFloat
  | InvalidUTF8
deriving DecidableEq, Repr

/-! ## The input cursor of `read.rs` (`SliceRead`) -/

/-- `SliceRead` from `read.rs`: a byte slice together with the index of the
current byte. -/
structure SliceRead where
  slice : List Nat
  index : Nat
deriving DecidableEq, Repr

/-- `SliceRead::peek_byte`. -/
def SliceRead.peek_byte (r : SliceRead) : Except Error Nat :=
  if h : r.index < r.slice.length then Except.ok (r.slice.get ⟨r.index, h⟩)
  else Except.error Error.EOF

/-- `SliceRead::next_byte`. -/
def SliceRead.next_byte (r : SliceRead) : Except Error (Nat × SliceRead) :=
  match r.peek_byte with
  | Except.ok b => Except.ok (b, ⟨r.slice, r.index + 1⟩)
  | Except.error e => Except.error e

/-- `SliceRead::next_bytes`: the argument is used as an *inclusive* end
offset; the guard is `index + end < len` and the returned sub-range is
`slice[index ..= index + end]`, after which the index advances by
`end + 1`. -/
def SliceRead.next_bytes (r : SliceRead) (endIdx : Nat) : Except Error (List Nat × SliceRead) :=
  if r.index + endIdx < r.slice.length then
    Except.ok ((r.slice.drop r.index).take (endIdx + 1), ⟨r.slice, r.index + endIdx + 1⟩)
  else
    Except.error Error.EOF

/-- `SliceRead::end`. -/
def SliceRead.atEnd (r : SliceRead) : Bool :=
  r.index = r.slice.length

/-! ## Parsers of `de.rs`, over the remaining input

In the list view the reader state is the list of not-yet-consumed bytes;
`next_byte` is pattern-matching on the head, `peek_byte` is looking at the
head without dropping it, and `next_bytes end` succeeds when
`end < remaining.length`, delivering `end + 1` bytes. -/

/-- `next_bytes` in the remaining-input view (same guard and same
`end + 1`-byte result as `SliceRead::next_bytes`). -/
def nextBytesList (endIdx : Nat) (l : List Nat) : Except Error (List Nat × List Nat) :=
  if endIdx < l.length then Except.ok (l.take (endIdx + 1), l.drop (endIdx + 1))
  else Except.error Error.EOF

/-- The loop shared verbatim by `Deserializer::parse_unsigned`
(terminator `b'e'`, error `ExpectedUnsignedInteger`) and
`Deserializer::parse_string_length` (terminator `b':'`, error
`ExpectedStringIntegerLength`).  `max` is the upper bound of the target
unsigned type (`checked_mul`/`checked_add` fail exactly when the
accumulator would exceed it), `acc` is `integer` and `first` is
`is_first_loop`. -/
def parse_unsigned_core (term : Nat) (err : Error) (max : Nat) :
    Nat → Bool → List Nat → Except Error (Nat × List Nat)
  | _, _, [] => Except.error Error.EOF
  | acc, first, ch :: rest =>
    if 49 ≤ ch ∧ ch ≤ 57 then
      -- `ch @ b'1'..=b'9'`: checked_mul by 10, then checked_add of the digit
      if max < acc * 10 then Except.error Error.IntegerOverflow
      else if max < acc * 10 + (ch - 48) then Except.error Error.IntegerOverflow
      else parse_unsigned_core term err max (acc * 10 + (ch - 48)) false rest
    else if ch = 48 then
      -- `b'0'`: peek the next byte; a leading zero is only legal before the
      -- terminator
      match rest with
      | [] => Except.error Error.EOF
      | next :: _ =>
        if next ≠ term ∧ first then Except.error err
        else if max < acc * 10 then Except.error Error.IntegerOverflow
        else parse_unsigned_core term err max (acc * 10) false rest
    else if ch = term then
      if first then Except.error err else Except.ok (acc, rest)
    else Except.error err

/-- `Deserializer::parse_unsigned` for a target with maximum `max`. -/
def parse_unsigned (max : Nat) : List Nat → Except Error (Nat × List Nat) :=
  parse_unsigned_core 101 Error.ExpectedUnsignedInteger max 0 true

/-- `Deserializer::parse_string_length`; the length type is `usize`
(64-bit). -/
def parse_string_length : List Nat → Except Error (Nat × List Nat) :=
  parse_unsigned_core 58 Error.ExpectedStringIntegerLength (2 ^ 64 - 1) 0 true

/-- `Deserializer::parse_signed` for a signed target whose maximum is
`max` (i.e. `2^(w-1) - 1`).  The magnitude is accumulated as a
non-negative value in the target type — so `checked_mul`/`checked_add`
fail exactly when the accumulator would exceed `max` — and is negated only
at the very end. `neg` is `is_negative`. -/
def parse_signed (max : Nat) :
    Nat → Bool → Bool → List Nat → Except Error (Int × List Nat)
  | _, _, _, [] => Except.error Error.EOF
  | acc, first, neg, ch :: rest =>
    if 49 ≤ ch ∧ ch ≤ 57 then
      if max < acc * 10 then Except.error Error.IntegerOverflow
      else if max < acc * 10 + (ch - 48) then Except.error Error.IntegerOverflow
      else parse_signed max (acc * 10 + (ch - 48)) false neg rest
    else if ch = 48 then
      match rest with
      | [] => Except.error Error.EOF
      | next :: _ =>
        if next ≠ 101 ∧ first then Except.error Error.ExpectedInteger
        else if max < acc * 10 then Except.error Error.IntegerOverflow
        else parse_signed max (acc * 10) false neg rest
    else if ch = 45 then
      -- `b'-'`: only legal first, and not in front of `'0'` or `'e'`
      match rest with
      | [] => Except.error Error.EOF
      | next :: _ =>
        if next = 48 ∨ next = 101 ∨ ¬first then Except.error Error.ExpectedInteger
        else parse_signed max acc false true rest
    else if ch = 101 then
      if first then Except.error Error.ExpectedInteger
      else Except.ok (if neg then -(acc : Int) else (acc : Int), rest)
    else Except.error Error.ExpectedInteger

/-- Rust `str::from_utf8` validity, as checked by `parse_string`:
well-formedness of a byte sequence as UTF-8. -/
def validUtf8 : List Nat → Bool
  | [] => true
  | b :: rest =>
    if b < 128 then validUtf8 rest
    else if 194 ≤ b ∧ b ≤ 223 then
      match rest with
      | c1 :: r => (128 ≤ c1 ∧ c1 ≤ 191 : Bool) && validUtf8 r
      | _ => false
    else if b = 224 then
      match rest with
      | c1 :: c2 :: r =>
        (160 ≤ c1 ∧ c1 ≤ 191 : Bool) && (128 ≤ c2 ∧ c2 ≤ 191 : Bool) && validUtf8 r
      | _ => false
    else if 225 ≤ b ∧ b ≤ 236 then
      match rest with
      | c1 :: c2 :: r =>
        (128 ≤ c1 ∧ c1 ≤ 191 : Bool) && (128 ≤ c2 ∧ c2 ≤ 191 : Bool) && validUtf8 r
      | _ => false
    else if b = 237 then
      match rest with
      | c1 :: c2 :: r =>
        (128 ≤ c1 ∧ c1 ≤ 159 : Bool) && (128 ≤ c2 ∧ c2 ≤ 191 : Bool) && validUtf8 r
      | _ => false
    else if 238 ≤ b ∧ b ≤ 239 then
      match rest with
      | c1 :: c2 :: r =>
        (128 ≤ c1 ∧ c1 ≤ 191 : Bool) && (128 ≤ c2 ∧ c2 ≤ 191 : Bool) && validUtf8 r
      | _ => false
    else if b = 240 then
      match rest with
      | c1 :: c2 :: c3 :: r =>
        (144 ≤ c1 ∧ c1 ≤ 191 : Bool) && (128 ≤ c2 ∧ c2 ≤ 191 : Bool) &&
          (128 ≤ c3 ∧ c3 ≤ 191 : Bool) && validUtf8 r
      | _ => false
    else if 241 ≤ b ∧ b ≤ 243 then
      match rest with
      | c1 :: c2 :: c3 :: r =>
        (128 ≤ c1 ∧ c1 ≤ 191 : Bool) && (128 ≤ c2 ∧ c2 ≤ 191 : Bool) &&
          (128 ≤ c3 ∧ c3 ≤ 191 : Bool) && validUtf8 r
      | _ => false
    else if b = 244 then
      match rest with
      | c1 :: c2 :: c3 :: r =>
        (128 ≤ c1 ∧ c1 ≤ 143 : Bool) && (128 ≤ c2 ∧ c2 ≤ 191 : Bool) &&
          (128 ≤ c3 ∧ c3 ≤ 191 : Bool) && validUtf8 r
      | _ => false
    else false

/-- The body of `Deserializer::parse_string` after the length was
parsed: `length` bytes obtained via `next_bytes(length - 1)`, validated
as UTF-8 (failing with `InvalidUnicodeCodePoint`); zero length yields the
empty string without consuming. -/
def parse_string_body (length : Nat) (r : List Nat) : Except Error (List Nat × List Nat) :=
  if 0 < length then
    match nextBytesList (length - 1) r with
    | Except.error e => Except.error e
    | Except.ok (bytes, r') =>
      if validUtf8 bytes then Except.ok (bytes, r')
      else Except.error Error.InvalidUnicodeCodePoint
  else Except.ok ([], r)

/-- `Deserializer::parse_string`: a length, then `parse_string_body`.
The decoded `&str` is represented by its bytes. -/
def parse_string (l : List Nat) : Except Error (List Nat × List Nat) :=
  match parse_string_length l with
  | Except.error e => Except.error e
  | Except.ok (length, r) => parse_string_body length r

/-- The body of `Deserializer::parse_bytes` after the length was
parsed. -/
def parse_bytes_body (length : Nat) (r : List Nat) : Except Error (List Nat × List Nat) :=
  if 0 < length then nextBytesList (length - 1) r
  else Except.ok ([], r)

/-- `Deserializer::parse_bytes`: like `parse_string` but without the
UTF-8 validation. -/
def parse_bytes (l : List Nat) : Except Error (List Nat × List Nat) :=
  match parse_string_length l with
  | Except.error e => Except.error e
  | Except.ok (length, r) => parse_bytes_body length r

/-! ## The typed drivers (`fn_deserialize_unsigned`, `fn_deserialize_signed`,
`deserialize_str`, `deserialize_bytes`) -/

/-- The body generated by `fn_deserialize_unsigned!` for an unsigned
target with maximum `max`: consume `b'i'`, reject a `'-'` found by
peeking, then run `parse_unsigned`. -/
def deserialize_unsigned (max : Nat) : List Nat → Except Error (Nat × List Nat)
  | [] => Except.error Error.EOF
  | ch :: rest =>
    if ch = 105 then
      match rest with
      | [] => Except.error Error.EOF
      | next :: _ =>
        if next = 45 then Except.error Error.ExpectedUnsignedInteger
        else parse_unsigned max rest
    else Except.error Error.ExpectedUnsignedInteger

/-- The body generated by `fn_deserialize_signed!` for a signed target
with maximum `max`: consume `b'i'` then run `parse_signed`. -/
def deserialize_signed (max : Nat) : List Nat → Except Error (Int × List Nat)
  | [] => Except.error Error.EOF
  | ch :: rest =>
    if ch = 105 then parse_signed max 0 true false rest
    else Except.error Error.ExpectedInteger

/-- `deserialize_str`: peek for a decimal digit, then `parse_string`. -/
def deserialize_str : List Nat → Except Error (List Nat × List Nat)
  | [] => Except.error Error.EOF
  | ch :: rest =>
    if 48 ≤ ch ∧ ch ≤ 57 then parse_string (ch :: rest)
    else Except.error Error.ExpectedStringIntegerLength

/-- `deserialize_bytes`: peek for a decimal digit, then `parse_bytes`. -/
def deserialize_bytes : List Nat → Except Error (List Nat × List Nat)
  | [] => Except.error Error.EOF
  | ch :: rest =>
    if 48 ≤ ch ∧ ch ≤ 57 then parse_bytes (ch :: rest)
    else Except.error Error.ExpectedStringIntegerLength

/-! ## Top-level entry (`from_trait` / `from_slice` / `from_str`)

`from_trait` deserializes one value and then requires `read.end()`;
residual bytes yield `TrailingCharacters`. -/

/-- `from_trait`, specialized to a parser in the remaining-input view:
the reader is at `end` exactly when no bytes remain. -/
def from_trait (p : List Nat → Except Error (α × List Nat)) (bs : List Nat) :
    Except Error α :=
  match p bs with
  | Except.error e => Except.error e
  | Except.ok (v, rest) =>
    if rest = [] then Except.ok v else Except.error Error.TrailingCharacters

/-- `from_slice::<uN>` with `uN`'s maximum `max`. -/
def from_slice_unsigned (max : Nat) (bs : List Nat) : Except Error Nat :=
  from_trait (deserialize_unsigned max) bs

/-- `from_slice::<iN>` with `iN`'s maximum `max`. -/
def from_slice_signed (max : Nat) (bs : List Nat) : Except Error Int :=
  from_trait (deserialize_signed max) bs

/-- `from_slice::<&str>`. -/
def from_slice_str (bs : List Nat) : Except Error (List Nat) :=
  from_trait deserialize_str bs

/-- `from_slice::<&[u8]>`. -/
def from_slice_bytes (bs : List Nat) : Except Error (List Nat) :=
  from_trait deserialize_bytes bs

/-! ## Self-describing decode (`deserialize_any`, `ListDeserializer`,
`DictionaryDeserializer`)

The host value produced by a self-describing decode: `deserialize_any`
dispatches on the leading byte to the UTF-8 string path, 64-bit unsigned
or signed integers (and never any wider width), lists or dictionaries.
Recursion is made structural with a fuel parameter; every recursive call
decreases the fuel by one, and at most three units of fuel are spent per
input byte consumed (entering a container costs the `any`/`seq`/`elements`
chain before its opening byte is behind the reader), so the fuel
`3 * input.length + 1` supplied by the top-level entry never runs out:
`deserialize_any_fuel_sufficient` below proves the result is unchanged
under any larger fuel, so the fueled family computes exactly the value of
the code's terminating recursion. -/
inductive BValue where
  | str (s : List Nat)
  | u64 (n : Nat)
  | i64 (v : Int)
  | list (l : List BValue)
  | dict (l : List (List Nat × BValue))

mutual

/-- `deserialize_any`: peek the first byte; a digit selects the string
path, `i` selects 64-bit integer decoding (signed exactly when the byte
after the `i` is `-`), `l` the list path, `d` the dictionary path, and
anything else is `UnknownType`. -/
def deserialize_any : Nat → List Nat → Except Error (BValue × List Nat)
  | 0, _ => Except.error Error.EOF
  | fuel + 1, bs =>
    match bs with
    | [] => Except.error Error.EOF
    | c :: rest =>
      if 48 ≤ c ∧ c ≤ 57 then
        match deserialize_str (c :: rest) with
        | Except.ok (s, r) => Except.ok (BValue.str s, r)
        | Except.error e => Except.error e
      else if c = 105 then
        match rest with
        | [] => Except.error Error.EOF
        | c2 :: _ =>
          if c2 ≠ 45 then
            match deserialize_unsigned (2 ^ 64 - 1) (c :: rest) with
            | Except.ok (n, r) => Except.ok (BValue.u64 n, r)
            | Except.error e => Except.error e
          else
            match deserialize_signed (2 ^ 63 - 1) (c :: rest) with
            | Except.ok (v, r) => Except.ok (BValue.i64 v, r)
            | Except.error e => Except.error e
      else if c = 108 then deserialize_seq fuel (c :: rest)
      else if c = 100 then deserialize_map fuel (c :: rest)
      else Except.error Error.UnknownType

/-- `deserialize_seq`: consume `l`, visit the elements, then require the
closing `e` (else `ExpectedListEnd`); a non-`l` first byte is
`ExpectedList`. -/
def deserialize_seq : Nat → List Nat → Except Error (BValue × List Nat)
  | 0, _ => Except.error Error.EOF
  | fuel + 1, bs =>
    match bs with
    | [] => Except.error Error.EOF
    | c :: rest =>
      if c = 108 then
        match seq_elements fuel rest with
        | Except.error e => Except.error e
        | Except.ok (elems, r) =>
          match r with
          | [] => Except.error Error.EOF
          | x :: r' =>
            if x ≠ 101 then Except.error Error.ExpectedListEnd
            else Except.ok (BValue.list elems, r')
      else Except.error Error.ExpectedList

/-- `ListDeserializer::next_element_seed`, iterated by `visit_seq`: stop
(without consuming) at `e`, otherwise decode one element through
`deserialize_any`. -/
def seq_elements : Nat → List Nat → Except Error (List BValue × List Nat)
  | 0, _ => Except.error Error.EOF
  | fuel + 1, bs =>
    match bs with
    | [] => Except.error Error.EOF
    | c :: rest =>
      if c = 101 then Except.ok ([], c :: rest)
      else
        match deserialize_any fuel (c :: rest) with
        | Except.error e => Except.error e
        | Except.ok (v, r) =>
          match seq_elements fuel r with
          | Except.error e => Except.error e
          | Except.ok (vs, r') => Except.ok (v :: vs, r')

/-- `deserialize_map`: consume `d`, visit the entries, then require the
closing `e` (else `ExpectedDictionaryEnd`); a non-`d` first byte is
`ExpectedDictionary`. -/
def deserialize_map : Nat → List Nat → Except Error (BValue × List Nat)
  | 0, _ => Except.error Error.EOF
  | fuel + 1, bs =>
    match bs with
    | [] => Except.error Error.EOF
    | c :: rest =>
      if c = 100 then
        match map_entries fuel rest with
        | Except.error e => Except.error e
        | Except.ok (entries, r) =>
          match r with
          | [] => Except.error Error.EOF
          | x :: r' =>
            if x ≠ 101 then Except.error Error.ExpectedDictionaryEnd
            else Except.ok (BValue.dict entries, r')
      else Except.error Error.ExpectedDictionary

/-- `DictionaryDeserializer::next_key_seed`/`next_value_seed`, iterated
by `visit_map`: stop at `e`; a key must start with a digit (else
`ExpectedDictionaryKeyString`) and is decoded by the string path, the
value by `deserialize_any`. -/
def map_entries : Nat → List Nat → Except Error (List (List Nat × BValue) × List Nat)
  | 0, _ => Except.error Error.EOF
  | fuel + 1, bs =>
    match bs with
    | [] => Except.error Error.EOF
    | c :: rest =>
      if c = 101 then Except.ok ([], c :: rest)
      else if 48 ≤ c ∧ c ≤ 57 then
        match deserialize_str (c :: rest) with
        | Except.error e => Except.error e
        | Except.ok (k, r) =>
          match deserialize_any fuel r with
          | Except.error e => Except.error e
          | Except.ok (v, r') =>
            match map_entries fuel r' with
            | Except.error e => Except.error e
            | Except.ok (entries, r'') => Except.ok ((k, v) :: entries, r'')
      else Except.error Error.ExpectedDictionaryKeyString

end

/-- `from_slice` in self-describing mode.  The fuel `3 * bs.length + 1`
is enough for the deepest possible nesting: by
`deserialize_any_fuel_sufficient` the result is the same under any larger
fuel, so this is the value computed by the code. -/
def from_slice_any (bs : List Nat) : Except Error BValue :=
  from_trait (deserialize_any (3 * bs.length + 1)) bs

/-! ## The serializer of `ser.rs`

The output sink is the `data : Vec<u8>` buffer of `Serializer`;
`data.write(bytes)` appends.  Every `serialize_*` method is a function
from the current buffer (and the value) to the extended buffer. -/

/-- Decimal digits of `n`, least significant first; `fuel ≥ n` makes the
recursion structural. -/
def dec_digits_aux : Nat → Nat → List Nat
  | 0, _ => []
  | fuel + 1, n => if n = 0 then [] else n % 10 :: dec_digits_aux fuel (n / 10)

/-- Decimal digits of `n`, most significant first (empty for `0`). -/
def dec_digits (n : Nat) : List Nat := (dec_digits_aux n n).reverse

/-- The ASCII bytes of Rust's `<uN as ToString>::to_string`. -/
def nat_to_string (n : Nat) : List Nat :=
  if n = 0 then [48] else (dec_digits n).map (· + 48)

/-- The ASCII bytes of Rust's `<iN as ToString>::to_string`. -/
def int_to_string (v : Int) : List Nat :=
  if v < 0 then 45 :: nat_to_string v.natAbs else nat_to_string v.natAbs

/-- `data.write(bytes)` on the output buffer. -/
def write (data bs : List Nat) : List Nat := data ++ bs

/-- `Serializer::serialize_integer`: write `i`, the value's decimal
string, then `e`. -/
def serialize_integer (data : List Nat) (v : Int) : List Nat :=
  write (write (write data [105]) (int_to_string v)) [101]

/-- `serialize_str`: write the byte length's decimal string, `:`, then
the string's bytes. -/
def serialize_str (data : List Nat) (s : List Nat) : List Nat :=
  write (write (write data (nat_to_string s.length)) [58]) s

/-- `serialize_bytes`: the code writes only the payload bytes — no
length, no `:` delimiter. -/
def serialize_bytes (data : List Nat) (v : List Nat) : List Nat :=
  write data v

/-- `serialize_map` writes the opening `d`. -/
def serialize_map_start (data : List Nat) : List Nat :=
  write data [100]

/-- `SerializeMap::end` writes the closing `e`. -/
def serialize_map_end (data : List Nat) : List Nat :=
  write data [101]

/-- Serializing a host map with byte-string keys and integer values:
`serialize_map`, then for each supplied pair `serialize_key` (the string
path) immediately followed by `serialize_value` (the integer path), in
exactly the order the caller supplies them, then `end`.  There is no
sorting step. -/
def to_vec_map (pairs : List (List Nat × Int)) : List Nat :=
  serialize_map_end
    (pairs.foldl (fun d p => serialize_integer (serialize_str d p.1) p.2)
      (serialize_map_start []))

/-- `to_vec` of a single integer. -/
def to_vec_integer (v : Int) : List Nat := serialize_integer [] v

/-- `to_vec` of a single string. -/
def to_vec_str (s : List Nat) : List Nat := serialize_str [] s

/-- `to_vec` of a single byte-string serialized through the bytes path
(`serde_bytes`). -/
def to_vec_bytes (v : List Nat) : List Nat := serialize_bytes [] v

/-! ## Decimal semantics of the parse loops and of `to_string` -/

/-- The value accumulated by the parse loops over a run of decimal digit
values (most significant first), starting from accumulator `a`. -/
def valMSD : Nat → List Nat → Nat
  | a, [] => a
  | a, d :: ds => valMSD (a * 10 + d) ds

/-- The value of a digit list, least significant first. -/
def valLSD : List Nat → Nat
  | [] => 0
  | d :: ds => d + 10 * valLSD ds

theorem valMSD_nil (a : Nat) : valMSD a [] = a := rfl

theorem valMSD_cons (a d : Nat) (ds : List Nat) :
    valMSD a (d :: ds) = valMSD (a * 10 + d) ds := rfl

theorem valMSD_eq_pow (ds : List Nat) : ∀ a, valMSD a ds = a * 10 ^ ds.length + valMSD 0 ds := by
  induction ds with
  | nil => intro a; simp [valMSD]
  | cons d ds ih =>
    intro a
    rw [valMSD_cons, ih, valMSD_cons 0, ih (0 * 10 + d)]
    simp [List.length_cons, pow_succ]
    ring

theorem le_valMSD (a : Nat) (ds : List Nat) : a ≤ valMSD a ds := by
  rw [valMSD_eq_pow]
  have h1 : a ≤ a * 10 ^ ds.length :=
    Nat.le_mul_of_pos_right a (Nat.pos_pow_of_pos _ (by omega))
  omega

theorem valMSD_append_singleton (ds : List Nat) : ∀ a d,
    valMSD a (ds ++ [d]) = valMSD a ds * 10 + d := by
  induction ds with
  | nil => intro a d; simp [valMSD]
  | cons x ds ih => intro a d; simpa [valMSD_cons] using ih (a * 10 + x) d

theorem valMSD_reverse (l : List Nat) : valMSD 0 l.reverse = valLSD l := by
  induction l with
  | nil => rfl
  | cons d ds ih =>
    simp only [List.reverse_cons, valMSD_append_singleton, ih, valLSD]
    ring

theorem dec_digits_aux_fuel : ∀ n f, n ≤ f → dec_digits_aux f n = dec_digits_aux n n := by
  intro n
  induction n using Nat.strong_induction_on with
  | _ n ih =>
    intro f hf
    match n, f, hf with
    | 0, 0, _ => rfl
    | 0, f + 1, _ => simp [dec_digits_aux]
    | n + 1, f + 1, hf =>
      have hdiv : (n + 1) / 10 < n + 1 := Nat.div_lt_self (by omega) (by omega)
      simp only [dec_digits_aux, Nat.succ_ne_zero, if_false]
      rw [ih _ hdiv f (by omega), ih _ hdiv n (by omega)]

theorem valLSD_dec_digits_aux : ∀ n f, n ≤ f → valLSD (dec_digits_aux f n) = n := by
  intro n
  induction n using Nat.strong_induction_on with
  | _ n ih =>
    intro f hf
    match n, f, hf with
    | 0, 0, _ => rfl
    | 0, f + 1, _ => simp [dec_digits_aux, valLSD]
    | n + 1, f + 1, hf =>
      have hdiv : (n + 1) / 10 < n + 1 := Nat.div_lt_self (by omega) (by omega)
      simp only [dec_digits_aux, Nat.succ_ne_zero, if_false, valLSD]
      rw [ih _ hdiv f (by omega)]
      omega

theorem valMSD_dec_digits (n : Nat) : valMSD 0 (dec_digits n) = n := by
  rw [dec_digits, valMSD_reverse, valLSD_dec_digits_aux n n le_rfl]

theorem dec_digits_aux_le9 : ∀ f n d, d ∈ dec_digits_aux f n → d ≤ 9 := by
  intro f
  induction f with
  | zero => intro n d h; simp [dec_digits_aux] at h
  | succ f ih =>
    intro n d h
    by_cases hn : n = 0
    · simp [dec_digits_aux, hn] at h
    · simp only [dec_digits_aux, hn, if_false, List.mem_cons] at h
      rcases h with h | h
      · omega
      · exact ih _ _ h

theorem dec_digits_aux_zero : ∀ f, dec_digits_aux f 0 = [] := by
  intro f
  cases f with
  | zero => rfl
  | succ f => simp [dec_digits_aux]

theorem dec_digits_aux_last : ∀ n f, 1 ≤ n → n ≤ f →
    ∃ ds d, dec_digits_aux f n = ds ++ [d] ∧ 1 ≤ d ∧ d ≤ 9 := by
  intro n
  induction n using Nat.strong_induction_on with
  | _ n ih =>
    intro f h1 hf
    match n, f, hf with
    | n + 1, f + 1, hf =>
      simp only [dec_digits_aux, Nat.succ_ne_zero, if_false]
      by_cases hdiv0 : (n + 1) / 10 = 0
      · refine ⟨[], (n + 1) % 10, ?_, ?_, ?_⟩
        · simp [hdiv0, dec_digits_aux_zero]
        · omega
        · omega
      · have hdiv : (n + 1) / 10 < n + 1 := Nat.div_lt_self (by omega) (by omega)
        obtain ⟨ds, d, heq, hd1, hd9⟩ := ih _ hdiv f (by omega) (by omega)
        exact ⟨(n + 1) % 10 :: ds, d, by rw [heq]; rfl, hd1, hd9⟩

/-- For `1 ≤ n`, `dec_digits n` is a nonempty digit run with a nonzero
leading digit whose value is `n`. -/
theorem dec_digits_shape (n : Nat) (h1 : 1 ≤ n) :
    ∃ d ds, dec_digits n = d :: ds ∧ 1 ≤ d ∧ d ≤ 9 ∧ (∀ x ∈ ds, x ≤ 9) ∧
      valMSD 0 (d :: ds) = n := by
  obtain ⟨ds, d, heq, hd1, hd9⟩ := dec_digits_aux_last n n h1 le_rfl
  refine ⟨d, ds.reverse, ?_, hd1, hd9, ?_, ?_⟩
  · rw [dec_digits, heq, List.reverse_append, List.reverse_singleton]; rfl
  · intro x hx
    exact dec_digits_aux_le9 n n x (by rw [heq]; exact List.mem_append_left _ (List.mem_reverse.mp hx))
  · have : d :: ds.reverse = dec_digits n := by
      rw [dec_digits, heq, List.reverse_append, List.reverse_singleton]; rfl
    rw [this, valMSD_dec_digits]

theorem nat_to_string_zero : nat_to_string 0 = [48] := rfl

theorem nat_to_string_pos (n : Nat) (h1 : 1 ≤ n) :
    ∃ d ds, nat_to_string n = (d + 48) :: ds.map (· + 48) ∧ 1 ≤ d ∧ d ≤ 9 ∧
      (∀ x ∈ ds, x ≤ 9) ∧ valMSD 0 (d :: ds) = n := by
  obtain ⟨d, ds, heq, hd1, hd9, hds, hval⟩ := dec_digits_shape n h1
  exact ⟨d, ds, by rw [nat_to_string, if_neg (by omega), heq]; rfl, hd1, hd9, hds, hval⟩

/-! ## One-step equations for the numeric parse loops -/

theorem pu_nil {term : Nat} {err : Error} {max acc : Nat} {first : Bool} :
    parse_unsigned_core term err max acc first [] = Except.error Error.EOF := rfl

theorem pu_cons {term : Nat} {err : Error} {max acc : Nat} {first : Bool} {ch : Nat}
    {rest : List Nat} :
    parse_unsigned_core term err max acc first (ch :: rest) =
      (if 49 ≤ ch ∧ ch ≤ 57 then
        if max < acc * 10 then Except.error Error.IntegerOverflow
        else if max < acc * 10 + (ch - 48) then Except.error Error.IntegerOverflow
        else parse_unsigned_core term err max (acc * 10 + (ch - 48)) false rest
      else if ch = 48 then
        match rest with
        | [] => Except.error Error.EOF
        | next :: _ =>
          if next ≠ term ∧ first then Except.error err
          else if max < acc * 10 then Except.error Error.IntegerOverflow
          else parse_unsigned_core term err max (acc * 10) false rest
      else if ch = term then
        if first then Except.error err else Except.ok (acc, rest)
      else Except.error err) := rfl

theorem pu_digit {term : Nat} {err : Error} {max acc : Nat} {first : Bool} {ch : Nat}
    {rest : List Nat} (h1 : 49 ≤ ch) (h2 : ch ≤ 57) :
    parse_unsigned_core term err max acc first (ch :: rest) =
      (if max < acc * 10 then Except.error Error.IntegerOverflow
       else if max < acc * 10 + (ch - 48) then Except.error Error.IntegerOverflow
       else parse_unsigned_core term err max (acc * 10 + (ch - 48)) false rest) := by
  rw [pu_cons, if_pos ⟨h1, h2⟩]

theorem pu_zero_cons {term : Nat} {err : Error} {max acc : Nat} {first : Bool}
    {next : Nat} {tail : List Nat} :
    parse_unsigned_core term err max acc first (48 :: next :: tail) =
      (if next ≠ term ∧ first then Except.error err
       else if max < acc * 10 then Except.error Error.IntegerOverflow
       else parse_unsigned_core term err max (acc * 10) false (next :: tail)) := rfl

theorem pu_zero_nil {term : Nat} {err : Error} {max acc : Nat} {first : Bool} :
    parse_unsigned_core term err max acc first [48] = Except.error Error.EOF := rfl

theorem pu_term {term : Nat} {err : Error} {max acc : Nat} {first : Bool}
    {rest : List Nat} (hterm : ¬(48 ≤ term ∧ term ≤ 57)) :
    parse_unsigned_core term err max acc first (term :: rest) =
      (if first then Except.error err else Except.ok (acc, rest)) := by
  rw [pu_cons, if_neg (show ¬(49 ≤ term ∧ term ≤ 57) by omega),
    if_neg (show term ≠ 48 by omega), if_pos rfl]

theorem pu_other {term : Nat} {err : Error} {max acc : Nat} {first : Bool}
    {ch : Nat} {rest : List Nat} (hch : ¬(48 ≤ ch ∧ ch ≤ 57)) (hne : ch ≠ term) :
    parse_unsigned_core term err max acc first (ch :: rest) = Except.error err := by
  rw [pu_cons, if_neg (show ¬(49 ≤ ch ∧ ch ≤ 57) by omega),
    if_neg (show ch ≠ 48 by omega), if_neg hne]

theorem ps_nil {max acc : Nat} {first neg : Bool} :
    parse_signed max acc first neg [] = Except.error Error.EOF := rfl

theorem ps_cons {max acc : Nat} {first neg : Bool} {ch : Nat} {rest : List Nat} :
    parse_signed max acc first neg (ch :: rest) =
      (if 49 ≤ ch ∧ ch ≤ 57 then
        if max < acc * 10 then Except.error Error.IntegerOverflow
        else if max < acc * 10 + (ch - 48) then Except.error Error.IntegerOverflow
        else parse_signed max (acc * 10 + (ch - 48)) false neg rest
      else if ch = 48 then
        match rest with
        | [] => Except.error Error.EOF
        | next :: _ =>
          if next ≠ 101 ∧ first then Except.error Error.ExpectedInteger
          else if max < acc * 10 then Except.error Error.IntegerOverflow
          else parse_signed max (acc * 10) false neg rest
      else if ch = 45 then
        match rest with
        | [] => Except.error Error.EOF
        | next :: _ =>
          if next = 48 ∨ next = 101 ∨ ¬first then Except.error Error.ExpectedInteger
          else parse_signed max acc false true rest
      else if ch = 101 then
        if first then Except.error Error.ExpectedInteger
        else Except.ok (if neg then -(acc : Int) else (acc : Int), rest)
      else Except.error Error.ExpectedInteger) := rfl

theorem ps_digit {max acc : Nat} {first neg : Bool} {ch : Nat} {rest : List Nat}
    (h1 : 49 ≤ ch) (h2 : ch ≤ 57) :
    parse_signed max acc first neg (ch :: rest) =
      (if max < acc * 10 then Except.error Error.IntegerOverflow
       else if max < acc * 10 + (ch - 48) then Except.error Error.IntegerOverflow
       else parse_signed max (acc * 10 + (ch - 48)) false neg rest) := by
  rw [ps_cons, if_pos ⟨h1, h2⟩]

theorem ps_zero_cons {max acc : Nat} {first neg : Bool} {next : Nat} {tail : List Nat} :
    parse_signed max acc first neg (48 :: next :: tail) =
      (if next ≠ 101 ∧ first then Except.error Error.ExpectedInteger
       else if max < acc * 10 then Except.error Error.IntegerOverflow
       else parse_signed max (acc * 10) false neg (next :: tail)) := rfl

theorem ps_zero_nil {max acc : Nat} {first neg : Bool} :
    parse_signed max acc first neg [48] = Except.error Error.EOF := rfl

theorem ps_minus_cons {max acc : Nat} {first neg : Bool} {next : Nat} {tail : List Nat} :
    parse_signed max acc first neg (45 :: next :: tail) =
      (if next = 48 ∨ next = 101 ∨ ¬first then Except.error Error.ExpectedInteger
       else parse_signed max acc false true (next :: tail)) := rfl

theorem ps_minus_nil {max acc : Nat} {first neg : Bool} :
    parse_signed max acc first neg [45] = Except.error Error.EOF := rfl

theorem ps_term {max acc : Nat} {first neg : Bool} {rest : List Nat} :
    parse_signed max acc first neg (101 :: rest) =
      (if first then Except.error Error.ExpectedInteger
       else Except.ok (if neg then -(acc : Int) else (acc : Int), rest)) := rfl

theorem ps_other {max acc : Nat} {first neg : Bool} {ch : Nat} {rest : List Nat}
    (hch : ¬(48 ≤ ch ∧ ch ≤ 57)) (h45 : ch ≠ 45) (h101 : ch ≠ 101) :
    parse_signed max acc first neg (ch :: rest) = Except.error Error.ExpectedInteger := by
  rw [ps_cons, if_neg (show ¬(49 ≤ ch ∧ ch ≤ 57) by omega),
    if_neg (show ch ≠ 48 by omega), if_neg h45, if_neg h101]

/-! ## Behaviour of the numeric parse loops on digit runs -/

/-- After the first iteration, running the unsigned loop over a run of
digits followed by the terminator accumulates the digits' value with
checked arithmetic: the result is the value when it fits, and
`IntegerOverflow` as soon as a step would exceed `max`. -/
theorem parse_unsigned_core_digits (term : Nat) (err : Error) (max : Nat)
    (hterm : ¬(48 ≤ term ∧ term ≤ 57)) :
    ∀ ds acc rest, (∀ d ∈ ds, d ≤ 9) → acc ≤ max →
    parse_unsigned_core term err max acc false (ds.map (· + 48) ++ term :: rest) =
      (if max < valMSD acc ds then Except.error Error.IntegerOverflow
       else Except.ok (valMSD acc ds, rest)) := by
  intro ds
  induction ds with
  | nil =>
    intro acc rest _ hacc
    simp only [List.map_nil, List.nil_append, valMSD_nil]
    rw [pu_term hterm, if_neg (show ¬(false = true) by simp),
      if_neg (show ¬max < acc by omega)]
  | cons d ds ih =>
    intro acc rest hds hacc
    have hd9 : d ≤ 9 := hds d (List.mem_cons_self _ _)
    have hds' : ∀ x ∈ ds, x ≤ 9 := fun x hx => hds x (List.mem_cons_of_mem _ hx)
    rw [valMSD_cons]
    by_cases hd0 : d = 0
    · subst hd0
      cases ds with
      | nil =>
        simp only [List.map_cons, List.map_nil, List.cons_append, List.nil_append]
        rw [pu_zero_cons, if_neg (show ¬(term ≠ term ∧ false = true) by simp)]
        simp only [valMSD_nil, Nat.add_zero]
        by_cases hov : max < acc * 10
        · rw [if_pos hov, if_pos hov]
        · rw [if_neg hov, if_neg hov]
          have h := ih (acc * 10) rest (by simp) (le_of_not_lt hov)
          simp only [List.map_nil, List.nil_append, valMSD_nil] at h
          rw [h, if_neg hov]
      | cons d2 ds2 =>
        simp only [List.map_cons, List.cons_append]
        rw [pu_zero_cons, if_neg (show ¬(d2 + 48 ≠ term ∧ false = true) by simp)]
        by_cases hov : max < acc * 10
        · rw [if_pos hov]
          have hge := le_valMSD (acc * 10 + 0) (d2 :: ds2)
          rw [if_pos (show max < valMSD (acc * 10 + 0) (d2 :: ds2) by omega)]
        · rw [if_neg hov]
          have h := ih (acc * 10) rest hds' (le_of_not_lt hov)
          simp only [List.map_cons, List.cons_append] at h
          rw [h]
          simp only [Nat.add_zero]
    · simp only [List.map_cons, List.cons_append]
      rw [pu_digit (show 49 ≤ d + 48 by omega) (show d + 48 ≤ 57 by omega)]
      have hsub : d + 48 - 48 = d := by omega
      rw [hsub]
      by_cases hov1 : max < acc * 10
      · rw [if_pos hov1]
        have hge := le_valMSD (acc * 10 + d) ds
        rw [if_pos (show max < valMSD (acc * 10 + d) ds by omega)]
      · rw [if_neg hov1]
        by_cases hov2 : max < acc * 10 + d
        · rw [if_pos hov2]
          have hge := le_valMSD (acc * 10 + d) ds
          rw [if_pos (show max < valMSD (acc * 10 + d) ds by omega)]
        · rw [if_neg hov2, ih (acc * 10 + d) rest hds' (le_of_not_lt hov2)]

/-- From its first iteration, the unsigned loop applied to the canonical
decimal encoding of `n` followed by the terminator returns `n` when
`n ≤ max` and `IntegerOverflow` otherwise. -/
theorem parse_unsigned_core_start (term : Nat) (err : Error) (max : Nat)
    (hterm : ¬(48 ≤ term ∧ term ≤ 57)) (n : Nat) (rest : List Nat) :
    parse_unsigned_core term err max 0 true (nat_to_string n ++ term :: rest) =
      (if max < n then Except.error Error.IntegerOverflow
       else Except.ok (n, rest)) := by
  by_cases hn : n = 0
  · subst hn
    rw [nat_to_string_zero]
    simp only [List.cons_append, List.nil_append]
    rw [pu_zero_cons, if_neg (show ¬(term ≠ term ∧ true = true) by simp),
      if_neg (show ¬max < 0 * 10 by omega)]
    have h := parse_unsigned_core_digits term err max hterm [] (0 * 10) rest (by simp)
      (by omega)
    simp only [List.map_nil, List.nil_append, valMSD_nil] at h
    rw [h, if_neg (show ¬max < 0 * 10 by omega)]
  · obtain ⟨d, ds, heq, hd1, hd9, hds, hval⟩ := nat_to_string_pos n (by omega)
    rw [heq]
    simp only [List.cons_append]
    rw [pu_digit (show 49 ≤ d + 48 by omega) (show d + 48 ≤ 57 by omega)]
    have hsub : d + 48 - 48 = d := by omega
    rw [hsub]
    rw [if_neg (show ¬max < 0 * 10 by omega)]
    have hval' : valMSD (0 * 10 + d) ds = n := by rw [← hval, valMSD_cons]
    have hlow := le_valMSD (0 * 10 + d) ds
    by_cases hov : max < d
    · rw [if_pos (show max < 0 * 10 + d by omega), if_pos (show max < n by omega)]
    · rw [if_neg (show ¬max < 0 * 10 + d by omega)]
      rw [parse_unsigned_core_digits term err max hterm ds (0 * 10 + d) rest hds (by omega)]
      rw [hval']

/-- After the first iteration, the signed loop over a run of digits
followed by `e` accumulates the digits' value (checked against `max`),
negating at the very end exactly when a leading `-` was seen. -/
theorem parse_signed_digits (max : Nat) :
    ∀ ds acc rest neg, (∀ d ∈ ds, d ≤ 9) → acc ≤ max →
    parse_signed max acc false neg (ds.map (· + 48) ++ 101 :: rest) =
      (if max < valMSD acc ds then Except.error Error.IntegerOverflow
       else Except.ok (if neg then -(valMSD acc ds : Int) else (valMSD acc ds : Int), rest)) := by
  intro ds
  induction ds with
  | nil =>
    intro acc rest neg _ hacc
    simp only [List.map_nil, List.nil_append, valMSD_nil]
    rw [ps_term, if_neg (show ¬(false = true) by simp),
      if_neg (show ¬max < acc by omega)]
  | cons d ds ih =>
    intro acc rest neg hds hacc
    have hd9 : d ≤ 9 := hds d (List.mem_cons_self _ _)
    have hds' : ∀ x ∈ ds, x ≤ 9 := fun x hx => hds x (List.mem_cons_of_mem _ hx)
    rw [valMSD_cons]
    by_cases hd0 : d = 0
    · subst hd0
      cases ds with
      | nil =>
        simp only [List.map_cons, List.map_nil, List.cons_append, List.nil_append]
        rw [ps_zero_cons, if_neg (show ¬(101 ≠ 101 ∧ false = true) by simp)]
        simp only [valMSD_nil, Nat.add_zero]
        by_cases hov : max < acc * 10
        · rw [if_pos hov, if_pos hov]
        · rw [if_neg hov, if_neg hov]
          have h := ih (acc * 10) rest neg (by simp) (le_of_not_lt hov)
          simp only [List.map_nil, List.nil_append, valMSD_nil] at h
          rw [h, if_neg hov]
      | cons d2 ds2 =>
        simp only [List.map_cons, List.cons_append]
        rw [ps_zero_cons, if_neg (show ¬(d2 + 48 ≠ 101 ∧ false = true) by simp)]
        by_cases hov : max < acc * 10
        · rw [if_pos hov]
          have hge := le_valMSD (acc * 10 + 0) (d2 :: ds2)
          rw [if_pos (show max < valMSD (acc * 10 + 0) (d2 :: ds2) by omega)]
        · rw [if_neg hov]
          have h := ih (acc * 10) rest neg hds' (le_of_not_lt hov)
          simp only [List.map_cons, List.cons_append] at h
          rw [h]
          simp only [Nat.add_zero]
    · simp only [List.map_cons, List.cons_append]
      rw [ps_digit (show 49 ≤ d + 48 by omega) (show d + 48 ≤ 57 by omega)]
      have hsub : d + 48 - 48 = d := by omega
      rw [hsub]
      by_cases hov1 : max < acc * 10
      · rw [if_pos hov1]
        have hge := le_valMSD (acc * 10 + d) ds
        rw [if_pos (show max < valMSD (acc * 10 + d) ds by omega)]
      · rw [if_neg hov1]
        by_cases hov2 : max < acc * 10 + d
        · rw [if_pos hov2]
          have hge := le_valMSD (acc * 10 + d) ds
          rw [if_pos (show max < valMSD (acc * 10 + d) ds by omega)]
        · rw [if_neg hov2, ih (acc * 10 + d) rest neg hds' (le_of_not_lt hov2)]

/-- `parse_signed` applied to the canonical decimal encoding of `v`
followed by `e` yields `v` when the magnitude fits in `max` and
`IntegerOverflow` otherwise — in particular `v = -(max + 1)`, the most
negative value of the target, overflows even though it is representable,
because the magnitude is accumulated positively before negation. -/
theorem parse_signed_start (max : Nat) (v : Int) (rest : List Nat) :
    parse_signed max 0 true false (int_to_string v ++ 101 :: rest) =
      (if max < v.natAbs then Except.error Error.IntegerOverflow
       else Except.ok (v, rest)) := by
  by_cases hv : v < 0
  · rw [int_to_string, if_pos hv]
    have hm1 : 1 ≤ v.natAbs := by omega
    obtain ⟨d, ds, heq, hd1, hd9, hds, hval⟩ := nat_to_string_pos v.natAbs hm1
    rw [heq]
    simp only [List.cons_append]
    rw [ps_minus_cons,
      if_neg (show ¬(d + 48 = 48 ∨ d + 48 = 101 ∨ ¬(true = true)) by simp; omega)]
    have hall : ∀ x ∈ d :: ds, x ≤ 9 := by
      intro x hx
      rcases List.mem_cons.mp hx with h | h
      · omega
      · exact hds x h
    have h := parse_signed_digits max (d :: ds) 0 rest true hall (by omega)
    simp only [List.map_cons, List.cons_append] at h
    rw [h]
    have hval0 : valMSD 0 (d :: ds) = v.natAbs := hval
    rw [hval0]
    by_cases hov : max < v.natAbs
    · rw [if_pos hov, if_pos hov]
    · rw [if_neg hov, if_neg hov]
      have hrep : -((v.natAbs : Nat) : Int) = v := by omega
      simp only [if_true]
      rw [hrep]
  · rw [int_to_string, if_neg hv]
    by_cases hn : v.natAbs = 0
    · have hv0 : v = 0 := by omega
      subst hv0
      rw [show Int.natAbs 0 = 0 from rfl, nat_to_string_zero]
      simp only [List.cons_append, List.nil_append]
      rw [ps_zero_cons, if_neg (show ¬(101 ≠ 101 ∧ true = true) by simp),
        if_neg (show ¬max < 0 * 10 by omega)]
      rw [ps_term, if_neg (show ¬(false = true) by simp)]
      rw [if_neg (show ¬max < 0 by omega)]
      simp
    · obtain ⟨d, ds, heq, hd1, hd9, hds, hval⟩ := nat_to_string_pos v.natAbs (by omega)
      rw [heq]
      simp only [List.cons_append]
      rw [ps_digit (show 49 ≤ d + 48 by omega) (show d + 48 ≤ 57 by omega)]
      have hsub : d + 48 - 48 = d := by omega
      rw [hsub]
      rw [if_neg (show ¬max < 0 * 10 by omega)]
      have hval' : valMSD (0 * 10 + d) ds = v.natAbs := by rw [← hval, valMSD_cons]
      have hlow := le_valMSD (0 * 10 + d) ds
      by_cases hov : max < d
      · rw [if_pos (show max < 0 * 10 + d by omega),
          if_pos (show max < v.natAbs by omega)]
      · rw [if_neg (show ¬max < 0 * 10 + d by omega)]
        rw [parse_signed_digits max ds (0 * 10 + d) rest false hds (by omega)]
        rw [hval']
        by_cases hov2 : max < v.natAbs
        · rw [if_pos hov2, if_pos hov2]
        · rw [if_neg hov2, if_neg hov2]
          have hrep : ((v.natAbs : Nat) : Int) = v := by omega
          simp [hrep]

/-! ## The typed integer drivers applied to encoder output -/

theorem deserialize_unsigned_i {max c : Nat} {tl : List Nat} :
    deserialize_unsigned max (105 :: c :: tl) =
      (if c = 45 then Except.error Error.ExpectedUnsignedInteger
       else parse_unsigned max (c :: tl)) := rfl

theorem deserialize_signed_i {max : Nat} {tl : List Nat} :
    deserialize_signed max (105 :: tl) = parse_signed max 0 true false tl := rfl

theorem to_vec_integer_eq (v : Int) :
    to_vec_integer v = 105 :: (int_to_string v ++ [101]) := by
  simp [to_vec_integer, serialize_integer, write]

theorem int_to_string_ofNat (n : Nat) : int_to_string (n : Int) = nat_to_string n := by
  rw [int_to_string, if_neg (show ¬((n : Int) < 0) by omega)]
  norm_num

theorem nat_to_string_head (n : Nat) :
    ∃ c tl, nat_to_string n = c :: tl ∧ 48 ≤ c ∧ c ≤ 57 := by
  by_cases hn : n = 0
  · exact ⟨48, [], by rw [hn, nat_to_string_zero], by omega, by omega⟩
  · obtain ⟨d, ds, heq, hd1, hd9, _, _⟩ := nat_to_string_pos n (by omega)
    exact ⟨d + 48, ds.map (· + 48), heq, by omega, by omega⟩

/-- `from_slice::<uN>` on the encoder's output for the unsigned value
`n`: the round-trip value when `n` fits, `IntegerOverflow` otherwise. -/
theorem from_slice_unsigned_encode (max n : Nat) :
    from_slice_unsigned max (to_vec_integer (n : Int)) =
      (if max < n then Except.error Error.IntegerOverflow else Except.ok n) := by
  rw [to_vec_integer_eq, int_to_string_ofNat]
  obtain ⟨c, tl, hns, hc48, hc57⟩ := nat_to_string_head n
  simp only [from_slice_unsigned, from_trait]
  rw [hns]
  simp only [List.cons_append]
  rw [deserialize_unsigned_i, if_neg (show c ≠ 45 by omega)]
  have hshape : (c :: (tl ++ [101]) : List Nat) = nat_to_string n ++ 101 :: [] := by
    rw [hns]
    rfl
  rw [hshape]
  rw [show parse_unsigned max (nat_to_string n ++ 101 :: []) =
    parse_unsigned_core 101 Error.ExpectedUnsignedInteger max 0 true
      (nat_to_string n ++ 101 :: []) from rfl]
  rw [parse_unsigned_core_start 101 Error.ExpectedUnsignedInteger max (by omega) n []]
  split_ifs <;> rfl

/-- `from_slice::<iN>` on the encoder's output for the signed value `v`:
the round-trip value when the magnitude fits, `IntegerOverflow`
otherwise — including for `v = -(max+1)`, the representable most negative
value. -/
theorem from_slice_signed_encode (max : Nat) (v : Int) :
    from_slice_signed max (to_vec_integer v) =
      (if max < v.natAbs then Except.error Error.IntegerOverflow else Except.ok v) := by
  rw [to_vec_integer_eq]
  simp only [from_slice_signed, from_trait]
  rw [deserialize_signed_i]
  rw [show ((int_to_string v : List Nat) ++ [101]) = int_to_string v ++ 101 :: [] from rfl]
  rw [parse_signed_start max v []]
  split_ifs <;> rfl

/-! ## Rejection of inputs with an offending byte before the terminator -/

theorem from_trait_error {α : Type} {p : List Nat → Except Error (α × List Nat)}
    {bs : List Nat} {e : Error} (h : p bs = Except.error e) :
    from_trait p bs = Except.error e := by
  simp only [from_trait]
  rw [h]

theorem from_trait_ok {α : Type} {p : List Nat → Except Error (α × List Nat)}
    {bs : List Nat} {v : α} (h : p bs = Except.ok (v, [])) :
    from_trait p bs = Except.ok v := by
  simp only [from_trait]
  rw [h]
  rfl

/-- Running the unsigned loop over digits that are followed by a byte
that is neither a digit nor the terminator always fails: with the
loop's shape error, or with `IntegerOverflow` when the checked
accumulation exceeds `max` before the offending byte is reached. -/
theorem parse_unsigned_core_bad (term : Nat) (err : Error) (max : Nat)
    (hterm : ¬(48 ≤ term ∧ term ≤ 57)) :
    ∀ ds acc (first : Bool) c rest, (∀ d ∈ ds, d ≤ 9) → ¬(48 ≤ c ∧ c ≤ 57) → c ≠ term →
    (parse_unsigned_core term err max acc first (ds.map (· + 48) ++ c :: rest) =
        Except.error err ∨
      (max < valMSD acc ds ∧
        parse_unsigned_core term err max acc first (ds.map (· + 48) ++ c :: rest) =
          Except.error Error.IntegerOverflow)) := by
  intro ds
  induction ds with
  | nil =>
    intro acc first c rest _ hc hcne
    left
    simp only [List.map_nil, List.nil_append]
    exact pu_other hc hcne
  | cons d ds ih =>
    intro acc first c rest hds hc hcne
    have hd9 : d ≤ 9 := hds d (List.mem_cons_self _ _)
    have hds' : ∀ x ∈ ds, x ≤ 9 := fun x hx => hds x (List.mem_cons_of_mem _ hx)
    rw [valMSD_cons]
    by_cases hd0 : d = 0
    · subst hd0
      cases ds with
      | nil =>
        simp only [List.map_cons, List.map_nil, List.cons_append, List.nil_append]
        rw [pu_zero_cons]
        by_cases hf : first = true
        · rw [if_pos ⟨hcne, hf⟩]
          left
          rfl
        · rw [if_neg (by simp [hf])]
          by_cases hov : max < acc * 10
          · rw [if_pos hov]
            right
            refine ⟨?_, rfl⟩
            simp only [valMSD_nil]
            omega
          · rw [if_neg hov]
            have h := ih (acc * 10) false c rest (by simp) hc hcne
            simp only [List.map_nil, List.nil_append, valMSD_nil] at h
            rcases h with h | ⟨hlt, h⟩
            · left
              exact h
            · right
              refine ⟨?_, h⟩
              simp only [valMSD_nil]
              omega
      | cons d2 ds2 =>
        simp only [List.map_cons, List.cons_append]
        rw [pu_zero_cons]
        have hd2 : d2 ≤ 9 := hds' d2 (List.mem_cons_self _ _)
        by_cases hf : first = true
        · rw [if_pos ⟨show d2 + 48 ≠ term by omega, hf⟩]
          left
          rfl
        · rw [if_neg (by simp [hf])]
          by_cases hov : max < acc * 10
          · rw [if_pos hov]
            right
            refine ⟨?_, rfl⟩
            have := le_valMSD (acc * 10 + 0) (d2 :: ds2)
            omega
          · rw [if_neg hov]
            have h := ih (acc * 10) false c rest hds' hc hcne
            simp only [List.map_cons, List.cons_append] at h
            rcases h with h | ⟨hlt, h⟩
            · left
              exact h
            · right
              refine ⟨?_, h⟩
              simpa only [Nat.add_zero] using hlt
    · simp only [List.map_cons, List.cons_append]
      rw [pu_digit (show 49 ≤ d + 48 by omega) (show d + 48 ≤ 57 by omega)]
      have hsub : d + 48 - 48 = d := by omega
      rw [hsub]
      by_cases hov1 : max < acc * 10
      · rw [if_pos hov1]
        right
        refine ⟨?_, rfl⟩
        have := le_valMSD (acc * 10 + d) ds
        omega
      · rw [if_neg hov1]
        by_cases hov2 : max < acc * 10 + d
        · rw [if_pos hov2]
          right
          refine ⟨?_, rfl⟩
          have := le_valMSD (acc * 10 + d) ds
          omega
        · rw [if_neg hov2]
          exact ih (acc * 10 + d) false c rest hds' hc hcne

/-- Signed analogue of `parse_unsigned_core_bad`.  The extra side
conditions rule out a leading `-` (which the loop accepts) and an input
that ends right at a `-` (where peeking hits `EOF` instead). -/
theorem parse_signed_bad (max : Nat) :
    ∀ ds acc (first neg : Bool) c rest, (∀ d ∈ ds, d ≤ 9) → ¬(48 ≤ c ∧ c ≤ 57) →
    c ≠ 101 → ¬(ds = [] ∧ c = 45 ∧ first = true) → (c = 45 → rest ≠ []) →
    (parse_signed max acc first neg (ds.map (· + 48) ++ c :: rest) =
        Except.error Error.ExpectedInteger ∨
      (max < valMSD acc ds ∧
        parse_signed max acc first neg (ds.map (· + 48) ++ c :: rest) =
          Except.error Error.IntegerOverflow)) := by
  intro ds
  induction ds with
  | nil =>
    intro acc first neg c rest _ hc hc101 hlead hrest
    simp only [List.map_nil, List.nil_append]
    by_cases hc45 : c = 45
    · subst hc45
      have hf : ¬first = true := fun h => hlead ⟨rfl, rfl, h⟩
      cases rest with
      | nil => exact absurd rfl (hrest rfl)
      | cons next tail =>
        rw [ps_minus_cons, if_pos (Or.inr (Or.inr hf))]
        left
        rfl
    · left
      exact ps_other hc hc45 hc101
  | cons d ds ih =>
    intro acc first neg c rest hds hc hc101 _ hrest
    have hd9 : d ≤ 9 := hds d (List.mem_cons_self _ _)
    have hds' : ∀ x ∈ ds, x ≤ 9 := fun x hx => hds x (List.mem_cons_of_mem _ hx)
    rw [valMSD_cons]
    by_cases hd0 : d = 0
    · subst hd0
      cases ds with
      | nil =>
        simp only [List.map_cons, List.map_nil, List.cons_append, List.nil_append]
        rw [ps_zero_cons]
        by_cases hf : first = true
        · rw [if_pos ⟨show c ≠ 101 from hc101, hf⟩]
          left
          rfl
        · rw [if_neg (by simp [hf])]
          by_cases hov : max < acc * 10
          · rw [if_pos hov]
            right
            refine ⟨?_, rfl⟩
            simp only [valMSD_nil]
            omega
          · rw [if_neg hov]
            have h := ih (acc * 10) false neg c rest (by simp) hc hc101 (by simp) hrest
            simp only [List.map_nil, List.nil_append, valMSD_nil] at h
            rcases h with h | ⟨hlt, h⟩
            · left
              exact h
            · right
              refine ⟨?_, h⟩
              simp only [valMSD_nil]
              omega
      | cons d2 ds2 =>
        simp only [List.map_cons, List.cons_append]
        rw [ps_zero_cons]
        have hd2 : d2 ≤ 9 := hds' d2 (List.mem_cons_self _ _)
        by_cases hf : first = true
        · rw [if_pos ⟨show d2 + 48 ≠ 101 by omega, hf⟩]
          left
          rfl
        · rw [if_neg (by simp [hf])]
          by_cases hov : max < acc * 10
          · rw [if_pos hov]
            right
            refine ⟨?_, rfl⟩
            have := le_valMSD (acc * 10 + 0) (d2 :: ds2)
            omega
          · rw [if_neg hov]
            have h := ih (acc * 10) false neg c rest hds' hc hc101 (by simp) hrest
            simp only [List.map_cons, List.cons_append] at h
            rcases h with h | ⟨hlt, h⟩
            · left
              exact h
            · right
              refine ⟨?_, h⟩
              simpa only [Nat.add_zero] using hlt
    · simp only [List.map_cons, List.cons_append]
      rw [ps_digit (show 49 ≤ d + 48 by omega) (show d + 48 ≤ 57 by omega)]
      have hsub : d + 48 - 48 = d := by omega
      rw [hsub]
      by_cases hov1 : max < acc * 10
      · rw [if_pos hov1]
        right
        refine ⟨?_, rfl⟩
        have := le_valMSD (acc * 10 + d) ds
        omega
      · rw [if_neg hov1]
        by_cases hov2 : max < acc * 10 + d
        · rw [if_pos hov2]
          right
          refine ⟨?_, rfl⟩
          have := le_valMSD (acc * 10 + d) ds
          omega
        · rw [if_neg hov2]
          exact ih (acc * 10 + d) false neg c rest hds' hc hc101 (by simp) hrest

/-! ## Shape of the serializer's output -/

theorem serialize_str_eq (data s : List Nat) :
    serialize_str data s = data ++ (nat_to_string s.length ++ 58 :: s) := by
  simp [serialize_str, write]

theorem serialize_integer_eq (data : List Nat) (v : Int) :
    serialize_integer data v = data ++ (105 :: (int_to_string v ++ [101])) := by
  simp [serialize_integer, write]

theorem nat_to_string_length_pos (n : Nat) : 1 ≤ (nat_to_string n).length := by
  obtain ⟨c, tl, hns, _, _⟩ := nat_to_string_head n
  rw [hns]
  simp

/-- One map entry on the wire: the key through the string path, then the
value through the integer path. -/
def map_entry_bytes (p : List Nat × Int) : List Nat :=
  (nat_to_string p.1.length ++ 58 :: p.1) ++ (105 :: (int_to_string p.2 ++ [101]))

theorem to_vec_map_foldl (pairs : List (List Nat × Int)) : ∀ acc : List Nat,
    pairs.foldl (fun d p => serialize_integer (serialize_str d p.1) p.2) acc =
      acc ++ (pairs.map map_entry_bytes).flatten := by
  induction pairs with
  | nil => intro acc; simp
  | cons p ps ih =>
    intro acc
    simp only [List.foldl_cons, List.map_cons, List.flatten, ih]
    rw [serialize_str_eq, serialize_integer_eq]
    simp [map_entry_bytes, List.append_assoc]

/-! ## Claim theorems -/

/-- Claim C2, counterexample: supplying the pairs `(b, 2)` then `(a, 1)`
does not produce the claimed canonical `d1:ai1e1:bi2ee`; the encoder
appends the entries in call order, producing `d1:bi2e1:ai1ee`. -/
theorem c2_counterexample :
    to_vec_map [([98], 2), ([97], 1)] ≠
        [100, 49, 58, 97, 105, 49, 101, 49, 58, 98, 105, 50, 101, 101] ∧
      to_vec_map [([98], 2), ([97], 1)] =
        [100, 49, 58, 98, 105, 50, 101, 49, 58, 97, 105, 49, 101, 101] := by
  constructor
  · decide
  · rfl

/-- Claim C2, amended: the serializer's map implementation appends each
key/value pair to the output in exactly the order `serialize_key` /
`serialize_value` are called, between the `d` and the `e`, with no
sorting step; the output's keys are ascending only when the caller
already supplies them ascending (e.g. `[(a,1),(b,2)]` does produce
`d1:ai1e1:bi2ee`). -/
theorem c2_map_order_amended :
    (∀ pairs : List (List Nat × Int),
      to_vec_map pairs = 100 :: (pairs.map map_entry_bytes).flatten ++ [101]) ∧
    to_vec_map [([98], 2), ([97], 1)] =
        [100, 49, 58, 98, 105, 50, 101, 49, 58, 97, 105, 49, 101, 101] ∧
      to_vec_map [([97], 1), ([98], 2)] =
        [100, 49, 58, 97, 105, 49, 101, 49, 58, 98, 105, 50, 101, 101] := by
  refine ⟨?_, rfl, rfl⟩
  intro pairs
  simp only [to_vec_map, serialize_map_end, serialize_map_start, write]
  rw [to_vec_map_foldl]
  simp

/-- Claim C3 (a bug in the code, which its own `bytes` quickcheck test
contradicts): `serialize_bytes` writes only the payload bytes, with no
decimal length and no `:` delimiter, so its output never has the wire
shape of `serialize_str`; e.g. the payload `ab` serializes to `ab`, not
to `2:ab`. -/
theorem c3_serialize_bytes_bug :
    (∀ v : List Nat, to_vec_bytes v = v) ∧
    (∀ v : List Nat, to_vec_bytes v ≠ to_vec_str v) ∧
    to_vec_bytes [97, 98] = [97, 98] ∧
    to_vec_str [97, 98] = [50, 58, 97, 98] := by
  refine ⟨fun v => rfl, ?_, rfl, rfl⟩
  intro v h
  have hlen := congrArg List.length h
  rw [show to_vec_bytes v = v from rfl] at hlen
  rw [show to_vec_str v = serialize_str [] v from rfl, serialize_str_eq] at hlen
  simp only [List.nil_append, List.length_append, List.length_cons] at hlen
  have := nat_to_string_length_pos v.length
  omega

/-- Claim C1, counterexample: the claim asserts `decode(encode(v)) = v`
for every in-range value, in particular for the minimum signed value of
each width.  For the 8-bit width (`max = 2^7 - 1`), encoding `-128`
yields `i-128e` and decoding it back fails with `IntegerOverflow`
instead of returning `-128`: `parse_signed` accumulates the magnitude
`128 > 127` positively before negating. -/
theorem c1_roundtrip_counterexample :
    from_slice_signed (2 ^ 7 - 1) (to_vec_integer (-128)) =
        Except.error Error.IntegerOverflow ∧
      from_slice_signed (2 ^ 7 - 1) (to_vec_integer (-128)) ≠ Except.ok (-128) := by
  constructor
  · rfl
  · intro h
    rw [show from_slice_signed (2 ^ 7 - 1) (to_vec_integer (-128)) =
      Except.error Error.IntegerOverflow from rfl] at h
    exact Except.noConfusion h

/-- Claim C1, amended: `decode(encode(v)) = v` holds for every unsigned
value `v ≤ max` and every signed value with `|v| ≤ max` (that is, all of
the range except the most negative value `-(max+1)`); for `v = -(max+1)`
— `iN::MIN` of each width — decoding the encoding fails with
`IntegerOverflow`, because `parse_signed` accumulates the magnitude as a
positive value and negates only at the end. -/
theorem c1_roundtrip_amended :
    (∀ max n : Nat, n ≤ max →
      from_slice_unsigned max (to_vec_integer (n : Int)) = Except.ok n) ∧
    (∀ (max : Nat) (v : Int), v.natAbs ≤ max →
      from_slice_signed max (to_vec_integer v) = Except.ok v) ∧
    (∀ max : Nat,
      from_slice_signed max (to_vec_integer (-((max : Int) + 1))) =
        Except.error Error.IntegerOverflow) := by
  refine ⟨?_, ?_, ?_⟩
  · intro max n h
    rw [from_slice_unsigned_encode, if_neg (show ¬max < n by omega)]
  · intro max v h
    rw [from_slice_signed_encode, if_neg (show ¬max < v.natAbs by omega)]
  · intro max
    rw [from_slice_signed_encode,
      if_pos (show max < (-((max : Int) + 1)).natAbs by omega)]

/-- Witness for C1's amended theorem at concrete inputs: `u8`-style
round-trip of `200`, `i8`-style round-trip of `-127`, and the `i8`
minimum `-128` overflowing. -/
theorem c1_roundtrip_amended_witness :
    from_slice_unsigned 255 (to_vec_integer (200 : Int)) = Except.ok 200 ∧
    from_slice_signed 127 (to_vec_integer (-127)) = Except.ok (-127) ∧
    from_slice_signed 127 (to_vec_integer (-((127 : Int) + 1))) =
      Except.error Error.IntegerOverflow :=
  ⟨c1_roundtrip_amended.1 255 200 (by norm_num),
   c1_roundtrip_amended.2.1 127 (-127) (by norm_num),
   c1_roundtrip_amended.2.2 127⟩

/-- Claim C5, counterexample: the claim promises `ExpectedInteger` /
`ExpectedUnsignedInteger` for every input with a non-digit between `i`
and `e`, but on `i999xe` with an `i8` target (`max = 127`) the checked
accumulation overflows at the third `9`, before the offending `x` is
reached, so the error is `IntegerOverflow`, not `ExpectedInteger`. -/
theorem c5_counterexample :
    from_slice_signed 127 [105, 57, 57, 57, 120, 101] =
        Except.error Error.IntegerOverflow ∧
      from_slice_signed 127 [105, 57, 57, 57, 120, 101] ≠
        Except.error Error.ExpectedInteger := by
  constructor
  · rfl
  · intro h
    rw [show from_slice_signed 127 [105, 57, 57, 57, 120, 101] =
      Except.error Error.IntegerOverflow from rfl] at h
    exact Error.noConfusion (Except.error.inj h)

/-- Claim C5, amended: every non-canonical integer input of the claimed
shapes is rejected with no value produced; the error is
`ExpectedInteger` (signed target) / `ExpectedUnsignedInteger` (unsigned
target), except that `IntegerOverflow` is reported instead when the
checked accumulation of the digits preceding the offending byte already
exceeds the target width.  Parts: (1) `i-0…` signed, (2) `i-…` unsigned,
(3) `i0<digit>…`, (4) `ie`/`iE…`, (5) digits then a non-digit non-`e`
byte, unsigned, (6) the same, signed, (7) the same after a leading `-`,
signed. -/
theorem c5_noncanonical_amended :
    (∀ max : Nat, ∀ rest : List Nat,
      from_slice_signed max (105 :: 45 :: 48 :: rest) =
        Except.error Error.ExpectedInteger) ∧
    (∀ max : Nat, ∀ rest : List Nat,
      from_slice_unsigned max (105 :: 45 :: rest) =
        Except.error Error.ExpectedUnsignedInteger) ∧
    (∀ max d : Nat, ∀ rest : List Nat, 48 ≤ d → d ≤ 57 →
      from_slice_signed max (105 :: 48 :: d :: rest) =
          Except.error Error.ExpectedInteger ∧
        from_slice_unsigned max (105 :: 48 :: d :: rest) =
          Except.error Error.ExpectedUnsignedInteger) ∧
    (∀ max : Nat, ∀ rest : List Nat,
      from_slice_signed max (105 :: 101 :: rest) = Except.error Error.ExpectedInteger ∧
      from_slice_signed max (105 :: 69 :: rest) = Except.error Error.ExpectedInteger ∧
      from_slice_unsigned max (105 :: 101 :: rest) =
          Except.error Error.ExpectedUnsignedInteger ∧
        from_slice_unsigned max (105 :: 69 :: rest) =
          Except.error Error.ExpectedUnsignedInteger) ∧
    (∀ max : Nat, ∀ ds : List Nat, ∀ c : Nat, ∀ rest : List Nat,
      (∀ d ∈ ds, d ≤ 9) → ¬(48 ≤ c ∧ c ≤ 57) → c ≠ 101 →
      (from_slice_unsigned max (105 :: (ds.map (· + 48) ++ c :: rest)) =
          Except.error Error.ExpectedUnsignedInteger ∨
        (max < valMSD 0 ds ∧
          from_slice_unsigned max (105 :: (ds.map (· + 48) ++ c :: rest)) =
            Except.error Error.IntegerOverflow))) ∧
    (∀ max : Nat, ∀ ds : List Nat, ∀ c : Nat, ∀ rest : List Nat,
      (∀ d ∈ ds, d ≤ 9) → ¬(48 ≤ c ∧ c ≤ 57) → c ≠ 101 →
      ¬(ds = [] ∧ c = 45) → (c = 45 → rest ≠ []) →
      (from_slice_signed max (105 :: (ds.map (· + 48) ++ c :: rest)) =
          Except.error Error.ExpectedInteger ∨
        (max < valMSD 0 ds ∧
          from_slice_signed max (105 :: (ds.map (· + 48) ++ c :: rest)) =
            Except.error Error.IntegerOverflow))) ∧
    (∀ max : Nat, ∀ ds : List Nat, ∀ c : Nat, ∀ rest : List Nat,
      (∀ d ∈ ds, d ≤ 9) → ¬(48 ≤ c ∧ c ≤ 57) → c ≠ 101 → (c = 45 → rest ≠ []) →
      (from_slice_signed max (105 :: 45 :: (ds.map (· + 48) ++ c :: rest)) =
          Except.error Error.ExpectedInteger ∨
        (max < valMSD 0 ds ∧
          from_slice_signed max (105 :: 45 :: (ds.map (· + 48) ++ c :: rest)) =
            Except.error Error.IntegerOverflow))) := by
  refine ⟨?_, ?_, ?_, ?_, ?_, ?_, ?_⟩
  · intro max rest
    rfl
  · intro max rest
    rfl
  · intro max d rest h48 h57
    constructor
    · apply from_trait_error
      rw [deserialize_signed_i, ps_zero_cons, if_pos ⟨show d ≠ 101 by omega, rfl⟩]
    · apply from_trait_error
      rw [deserialize_unsigned_i, if_neg (show (48 : Nat) ≠ 45 by omega)]
      show parse_unsigned_core 101 Error.ExpectedUnsignedInteger max 0 true
        (48 :: d :: rest) = _
      rw [pu_zero_cons, if_pos ⟨show d ≠ 101 by omega, rfl⟩]
  · intro max rest
    exact ⟨rfl, rfl, rfl, rfl⟩
  · intro max ds c rest hds hc hc101
    cases ds with
    | nil =>
      simp only [List.map_nil, List.nil_append] at *
      by_cases hc45 : c = 45
      · subst hc45
        left
        rfl
      · have h := parse_unsigned_core_bad 101 Error.ExpectedUnsignedInteger max (by omega)
          [] 0 true c rest (by simp) hc hc101
        simp only [List.map_nil, List.nil_append] at h
        rcases h with h | ⟨hlt, h⟩
        · left
          apply from_trait_error
          rw [deserialize_unsigned_i, if_neg hc45]
          exact h
        · right
          refine ⟨hlt, ?_⟩
          apply from_trait_error
          rw [deserialize_unsigned_i, if_neg hc45]
          exact h
    | cons d2 ds2 =>
      have hd2 : d2 ≤ 9 := hds d2 (List.mem_cons_self _ _)
      have h := parse_unsigned_core_bad 101 Error.ExpectedUnsignedInteger max (by omega)
        (d2 :: ds2) 0 true c rest hds hc hc101
      simp only [List.map_cons, List.cons_append] at h ⊢
      rcases h with h | ⟨hlt, h⟩
      · left
        apply from_trait_error
        rw [deserialize_unsigned_i, if_neg (show d2 + 48 ≠ 45 by omega)]
        exact h
      · right
        refine ⟨hlt, ?_⟩
        apply from_trait_error
        rw [deserialize_unsigned_i, if_neg (show d2 + 48 ≠ 45 by omega)]
        exact h
  · intro max ds c rest hds hc hc101 hlead hrest
    have h := parse_signed_bad max ds 0 true false c rest hds hc hc101
      (by rintro ⟨h1, h2, _⟩; exact hlead ⟨h1, h2⟩) hrest
    rcases h with h | ⟨hlt, h⟩
    · left
      apply from_trait_error
      rw [deserialize_signed_i]
      exact h
    · right
      refine ⟨hlt, ?_⟩
      apply from_trait_error
      rw [deserialize_signed_i]
      exact h
  · intro max ds c rest hds hc hc101 hrest
    cases ds with
    | nil =>
      have h := parse_signed_bad max [] 0 false true c rest (by simp) hc hc101
        (by simp) hrest
      simp only [List.map_nil, List.nil_append] at h ⊢
      rcases h with h | ⟨hlt, h⟩
      · left
        apply from_trait_error
        rw [deserialize_signed_i, ps_minus_cons,
          if_neg (show ¬(c = 48 ∨ c = 101 ∨ ¬(true = true)) by simp; omega)]
        exact h
      · right
        refine ⟨hlt, ?_⟩
        apply from_trait_error
        rw [deserialize_signed_i, ps_minus_cons,
          if_neg (show ¬(c = 48 ∨ c = 101 ∨ ¬(true = true)) by simp; omega)]
        exact h
    | cons d2 ds2 =>
      have hd2 : d2 ≤ 9 := hds d2 (List.mem_cons_self _ _)
      by_cases hd20 : d2 = 0
      · subst hd20
        left
        apply from_trait_error
        rw [deserialize_signed_i]
        simp only [List.map_cons, List.cons_append]
        rw [ps_minus_cons, if_pos (Or.inl (show (0 : Nat) + 48 = 48 by norm_num))]
      · have h := parse_signed_bad max (d2 :: ds2) 0 false true c rest hds hc hc101
          (by simp) hrest
        simp only [List.map_cons, List.cons_append] at h ⊢
        rcases h with h | ⟨hlt, h⟩
        · left
          apply from_trait_error
          rw [deserialize_signed_i, ps_minus_cons,
            if_neg (show ¬(d2 + 48 = 48 ∨ d2 + 48 = 101 ∨ ¬(true = true)) by simp; omega)]
          exact h
        · right
          refine ⟨hlt, ?_⟩
          apply from_trait_error
          rw [deserialize_signed_i, ps_minus_cons,
            if_neg (show ¬(d2 + 48 = 48 ∨ d2 + 48 = 101 ∨ ¬(true = true)) by simp; omega)]
          exact h

/-- Witness for C5's amended theorem at concrete inputs: `i03e` signed,
and `i9xe` into each of the three offending-byte parts. -/
theorem c5_noncanonical_amended_witness :
    (from_slice_signed 127 [105, 48, 51, 101] = Except.error Error.ExpectedInteger ∧
      from_slice_unsigned 127 [105, 48, 51, 101] =
        Except.error Error.ExpectedUnsignedInteger) ∧
    (from_slice_unsigned 255 [105, 57, 120, 101] =
        Except.error Error.ExpectedUnsignedInteger ∨
      (255 < valMSD 0 [9] ∧
        from_slice_unsigned 255 [105, 57, 120, 101] =
          Except.error Error.IntegerOverflow)) ∧
    (from_slice_signed 127 [105, 57, 120, 101] = Except.error Error.ExpectedInteger ∨
      (127 < valMSD 0 [9] ∧
        from_slice_signed 127 [105, 57, 120, 101] =
          Except.error Error.IntegerOverflow)) ∧
    (from_slice_signed 127 [105, 45, 57, 120, 101] =
        Except.error Error.ExpectedInteger ∨
      (127 < valMSD 0 [9] ∧
        from_slice_signed 127 [105, 45, 57, 120, 101] =
          Except.error Error.IntegerOverflow)) :=
  ⟨c5_noncanonical_amended.2.2.1 127 51 [101] (by norm_num) (by norm_num),
   c5_noncanonical_amended.2.2.2.2.1 255 [9] 120 [101] (by simp) (by omega) (by omega),
   c5_noncanonical_amended.2.2.2.2.2.1 127 [9] 120 [101] (by simp) (by omega) (by omega)
     (by simp) (by simp),
   c5_noncanonical_amended.2.2.2.2.2.2 127 [9] 120 [101] (by simp) (by omega) (by omega)
     (by simp)⟩

/-- Claim C6 (confirmed): any input starting `i-` decoded into an
unsigned target fails with `ExpectedUnsignedInteger` — decided by
peeking for `-` right after the `i`, before any digit is accumulated —
and never with `IntegerOverflow`, whatever the digits and whatever the
target width. -/
theorem c6_unsigned_minus (max : Nat) (rest : List Nat) :
    from_slice_unsigned max (105 :: 45 :: rest) =
      Except.error Error.ExpectedUnsignedInteger := rfl

/-- Claim C7 (confirmed): for every canonically encoded integer whose
magnitude exceeds the requested target's maximum, decoding fails with
`IntegerOverflow` (never wrapping to a value): the unsigned case for
values `n > max`, and the signed case for magnitudes `|v| > max`. -/
theorem c7_overflow :
    (∀ max n : Nat, max < n →
      from_slice_unsigned max (to_vec_integer (n : Int)) =
        Except.error Error.IntegerOverflow) ∧
    (∀ (max : Nat) (v : Int), max < v.natAbs →
      from_slice_signed max (to_vec_integer v) =
        Except.error Error.IntegerOverflow) := by
  constructor
  · intro max n h
    rw [from_slice_unsigned_encode, if_pos h]
  · intro max v h
    rw [from_slice_signed_encode, if_pos h]

/-- Witness for C7 at the spec's own example: `i18446744073709551616e`
(the encoding of `2^64`) into a `u64` target (`max = 2^64 - 1`) yields
`IntegerOverflow`; and `i-129e` into an `i8` target does too. -/
theorem c7_overflow_witness :
    from_slice_unsigned (2 ^ 64 - 1) (to_vec_integer ((2 ^ 64 : Nat) : Int)) =
        Except.error Error.IntegerOverflow ∧
      from_slice_signed 127 (to_vec_integer (-129)) =
        Except.error Error.IntegerOverflow :=
  ⟨c7_overflow.1 (2 ^ 64 - 1) (2 ^ 64) (by norm_num),
   c7_overflow.2 127 (-129) (by norm_num)⟩

/-! ## String and bytes parsing of encoder-shaped input -/

theorem deserialize_str_cons {ch : Nat} {rest : List Nat} :
    deserialize_str (ch :: rest) =
      (if 48 ≤ ch ∧ ch ≤ 57 then parse_string (ch :: rest)
       else Except.error Error.ExpectedStringIntegerLength) := rfl

theorem deserialize_bytes_cons {ch : Nat} {rest : List Nat} :
    deserialize_bytes (ch :: rest) =
      (if 48 ≤ ch ∧ ch ≤ 57 then parse_bytes (ch :: rest)
       else Except.error Error.ExpectedStringIntegerLength) := rfl

theorem parse_string_length_encode (L : Nat) (rest : List Nat) :
    parse_string_length (nat_to_string L ++ 58 :: rest) =
      (if 2 ^ 64 - 1 < L then Except.error Error.IntegerOverflow
       else Except.ok (L, rest)) :=
  parse_unsigned_core_start 58 Error.ExpectedStringIntegerLength (2 ^ 64 - 1)
    (by omega) L rest

theorem parse_string_encode (payload rest : List Nat)
    (h2 : payload.length ≤ 2 ^ 64 - 1) :
    parse_string (nat_to_string payload.length ++ 58 :: (payload ++ rest)) =
      (if validUtf8 payload then Except.ok (payload, rest)
       else Except.error Error.InvalidUnicodeCodePoint) := by
  simp only [parse_string]
  rw [parse_string_length_encode payload.length (payload ++ rest),
    if_neg (show ¬2 ^ 64 - 1 < payload.length by omega)]
  show parse_string_body payload.length (payload ++ rest) = _
  by_cases h1 : 0 < payload.length
  · simp only [parse_string_body]
    rw [if_pos h1]
    simp only [nextBytesList, List.length_append]
    rw [if_pos (show payload.length - 1 < payload.length + rest.length by omega)]
    rw [show payload.length - 1 + 1 = payload.length by omega]
    rw [List.take_left, List.drop_left]
  · have hnil : payload = [] := List.length_eq_zero.mp (by omega)
    subst hnil
    simp only [parse_string_body]
    rw [if_neg h1]
    rw [if_pos (show validUtf8 [] = true from rfl)]
    rfl

theorem parse_bytes_encode (payload rest : List Nat)
    (h2 : payload.length ≤ 2 ^ 64 - 1) :
    parse_bytes (nat_to_string payload.length ++ 58 :: (payload ++ rest)) =
      Except.ok (payload, rest) := by
  simp only [parse_bytes]
  rw [parse_string_length_encode payload.length (payload ++ rest),
    if_neg (show ¬2 ^ 64 - 1 < payload.length by omega)]
  show parse_bytes_body payload.length (payload ++ rest) = _
  by_cases h1 : 0 < payload.length
  · simp only [parse_bytes_body]
    rw [if_pos h1]
    simp only [nextBytesList, List.length_append]
    rw [if_pos (show payload.length - 1 < payload.length + rest.length by omega)]
    rw [show payload.length - 1 + 1 = payload.length by omega]
    rw [List.take_left, List.drop_left]
  · have hnil : payload = [] := List.length_eq_zero.mp (by omega)
    subst hnil
    simp only [parse_bytes_body]
    rw [if_neg h1]
    rw [List.nil_append]

theorem deserialize_str_encode (payload rest : List Nat)
    (h2 : payload.length ≤ 2 ^ 64 - 1) :
    deserialize_str (nat_to_string payload.length ++ 58 :: (payload ++ rest)) =
      (if validUtf8 payload then Except.ok (payload, rest)
       else Except.error Error.InvalidUnicodeCodePoint) := by
  obtain ⟨c, tl, hns, hc48, hc57⟩ := nat_to_string_head payload.length
  rw [hns]
  simp only [List.cons_append]
  rw [deserialize_str_cons, if_pos ⟨hc48, hc57⟩]
  have hshape : (c :: (tl ++ 58 :: (payload ++ rest)) : List Nat) =
      nat_to_string payload.length ++ 58 :: (payload ++ rest) := by
    rw [hns]
    rfl
  rw [hshape, parse_string_encode payload rest h2]

theorem deserialize_bytes_encode (payload rest : List Nat)
    (h2 : payload.length ≤ 2 ^ 64 - 1) :
    deserialize_bytes (nat_to_string payload.length ++ 58 :: (payload ++ rest)) =
      Except.ok (payload, rest) := by
  obtain ⟨c, tl, hns, hc48, hc57⟩ := nat_to_string_head payload.length
  rw [hns]
  simp only [List.cons_append]
  rw [deserialize_bytes_cons, if_pos ⟨hc48, hc57⟩]
  have hshape : (c :: (tl ++ 58 :: (payload ++ rest)) : List Nat) =
      nat_to_string payload.length ++ 58 :: (payload ++ rest) := by
    rw [hns]
    rfl
  rw [hshape, parse_bytes_encode payload rest h2]

/-- Claim C4, counterexample: the claim names the error kind
`InvalidUTF8`, but decoding the eight bytes `6:He\xF0llo` into the text
target fails with `InvalidUnicodeCodePoint` — the variant `de.rs`
actually returns (and which `error.rs` does not even declare) — while
the same input decodes fine as a byte slice. -/
theorem c4_counterexample :
    from_slice_str [54, 58, 72, 101, 240, 108, 108, 111] =
        Except.error Error.InvalidUnicodeCodePoint ∧
      from_slice_str [54, 58, 72, 101, 240, 108, 108, 111] ≠
        Except.error Error.InvalidUTF8 ∧
      from_slice_bytes [54, 58, 72, 101, 240, 108, 108, 111] =
        Except.ok [72, 101, 240, 108, 108, 111] := by
  refine ⟨rfl, ?_, rfl⟩
  intro h
  rw [show from_slice_str [54, 58, 72, 101, 240, 108, 108, 111] =
    Except.error Error.InvalidUnicodeCodePoint from rfl] at h
  exact Error.noConfusion (Except.error.inj h)

/-- Claim C4, amended: decoding a byte-string whose payload is not
well-formed UTF-8 into the text target fails with
`InvalidUnicodeCodePoint` (not `InvalidUTF8`; neither variant is
declared by `error.rs` — the crate as given does not even compile),
while decoding the same input as a byte slice succeeds with the raw
payload. -/
theorem c4_invalid_utf8_amended (payload : List Nat)
    (hvu : validUtf8 payload = false) (h2 : payload.length ≤ 2 ^ 64 - 1) :
    from_slice_str (nat_to_string payload.length ++ 58 :: payload) =
        Except.error Error.InvalidUnicodeCodePoint ∧
      from_slice_bytes (nat_to_string payload.length ++ 58 :: payload) =
        Except.ok payload := by
  have hshape : (nat_to_string payload.length ++ 58 :: payload : List Nat) =
      nat_to_string payload.length ++ 58 :: (payload ++ []) := by
    rw [List.append_nil]
  constructor
  · apply from_trait_error
    rw [hshape, deserialize_str_encode payload [] h2]
    rw [if_neg (show ¬validUtf8 payload = true by rw [hvu]; simp)]
  · apply from_trait_ok
    rw [hshape, deserialize_bytes_encode payload [] h2]

/-- Witness for C4's amended theorem at the spec's own example payload
`He\xF0llo`. -/
theorem c4_invalid_utf8_amended_witness :
    from_slice_str (nat_to_string ([72, 101, 240, 108, 108, 111] : List Nat).length ++
        58 :: [72, 101, 240, 108, 108, 111]) =
      Except.error Error.InvalidUnicodeCodePoint ∧
    from_slice_bytes (nat_to_string ([72, 101, 240, 108, 108, 111] : List Nat).length ++
        58 :: [72, 101, 240, 108, 108, 111]) =
      Except.ok [72, 101, 240, 108, 108, 111] :=
  c4_invalid_utf8_amended [72, 101, 240, 108, 108, 111] (by rfl) (by norm_num)

/-- Claim C10, counterexample: the claim describes `take(n)` semantics —
exactly `n` bytes, `EOF` only when fewer than `n` remain, and an empty
sub-range for `n = 0`.  The code's `next_bytes` instead treats its
argument as an inclusive end offset: at `⟨[65], 0⟩`, `next_bytes 0`
returns the 1-byte range `[65]` (never an empty one), and `next_bytes 1`
is `EOF` even though one byte remains. -/
theorem c10_counterexample :
    SliceRead.next_bytes ⟨[65], 0⟩ 0 = Except.ok ([65], ⟨[65], 1⟩) ∧
      ([65] : List Nat) ≠ [] ∧
      SliceRead.next_bytes ⟨[65], 0⟩ 1 = Except.error Error.EOF := by
  refine ⟨rfl, ?_, rfl⟩
  simp

/-- Claim C10, amended: `next_bytes(end)` treats its argument as an
inclusive end offset.  It succeeds exactly when `index + end < len`
(i.e. at least `end + 1` bytes remain), returning exactly the `end + 1`
bytes `slice[index ..= index + end]` and advancing the index by
`end + 1`; with fewer bytes it is `EOF`; and a successful result is
never the empty sub-range (callers compensate by passing
`length - 1`). -/
theorem c10_next_bytes_amended (r : SliceRead) (k : Nat) :
    (r.index + k < r.slice.length →
      SliceRead.next_bytes r k =
          Except.ok ((r.slice.drop r.index).take (k + 1), ⟨r.slice, r.index + k + 1⟩) ∧
        ((r.slice.drop r.index).take (k + 1)).length = k + 1) ∧
    (¬r.index + k < r.slice.length →
      SliceRead.next_bytes r k = Except.error Error.EOF) ∧
    (∀ out r', SliceRead.next_bytes r k = Except.ok (out, r') → out ≠ []) := by
  refine ⟨?_, ?_, ?_⟩
  · intro h
    constructor
    · simp only [SliceRead.next_bytes]
      rw [if_pos h]
    · rw [List.length_take, List.length_drop]
      omega
  · intro h
    simp only [SliceRead.next_bytes]
    rw [if_neg h]
  · intro out r' h
    by_cases hin : r.index + k < r.slice.length
    · simp only [SliceRead.next_bytes] at h
      rw [if_pos hin] at h
      have hpair := Except.ok.inj h
      have hout : (r.slice.drop r.index).take (k + 1) = out :=
        congrArg Prod.fst hpair
      intro hnil
      rw [hnil] at hout
      have hlen := congrArg List.length hout
      rw [List.length_take, List.length_drop] at hlen
      simp at hlen
      omega
    · simp only [SliceRead.next_bytes] at h
      rw [if_neg hin] at h
      exact Except.noConfusion h

/-- Witness for C10's amended theorem at `⟨[65, 66], 0⟩` with offset `0`
(success, 1 byte) and at `⟨[65, 66], 2⟩` (exhausted, `EOF`). -/
theorem c10_next_bytes_amended_witness :
    SliceRead.next_bytes ⟨[65, 66], 0⟩ 0 = Except.ok ([65], ⟨[65, 66], 1⟩) ∧
      (([65] : List Nat)).length = 1 ∧
      SliceRead.next_bytes ⟨[65, 66], 2⟩ 0 = Except.error Error.EOF := by
  have h1 := (c10_next_bytes_amended ⟨[65, 66], 0⟩ 0).1 (by norm_num)
  have h2 := (c10_next_bytes_amended ⟨[65, 66], 2⟩ 0).2.1 (by norm_num)
  exact ⟨h1.1, h1.2, h2⟩

/-- Claim C9 (confirmed): `deserialize_any` dispatches solely on the
leading byte (and, for `i`, the byte after it): a decimal digit selects
the string path (`deserialize_str`), `i` followed by `-` selects signed
64-bit integer decoding (bound `2^63 - 1`), `i` otherwise selects
unsigned 64-bit integer decoding (bound `2^64 - 1`) — never any width
wider than 64 bits — `l` selects the list path, `d` the dictionary path,
and any other leading byte fails with `UnknownType`. -/
theorem c9_dispatch (f : Nat) (c : Nat) (rest : List Nat) :
    ((48 ≤ c ∧ c ≤ 57) →
      deserialize_any (f + 1) (c :: rest) =
        (match deserialize_str (c :: rest) with
          | Except.ok (s, r) => Except.ok (BValue.str s, r)
          | Except.error e => Except.error e)) ∧
    (deserialize_any (f + 1) (105 :: 45 :: rest) =
      (match deserialize_signed (2 ^ 63 - 1) (105 :: 45 :: rest) with
        | Except.ok (v, r) => Except.ok (BValue.i64 v, r)
        | Except.error e => Except.error e)) ∧
    (∀ c2, c2 ≠ 45 →
      deserialize_any (f + 1) (105 :: c2 :: rest) =
        (match deserialize_unsigned (2 ^ 64 - 1) (105 :: c2 :: rest) with
          | Except.ok (n, r) => Except.ok (BValue.u64 n, r)
          | Except.error e => Except.error e)) ∧
    (deserialize_any (f + 1) (108 :: rest) = deserialize_seq f (108 :: rest)) ∧
    (deserialize_any (f + 1) (100 :: rest) = deserialize_map f (100 :: rest)) ∧
    (¬(48 ≤ c ∧ c ≤ 57) → c ≠ 105 → c ≠ 108 → c ≠ 100 →
      deserialize_any (f + 1) (c :: rest) = Except.error Error.UnknownType) := by
  refine ⟨?_, ?_, ?_, ?_, ?_, ?_⟩
  · intro hd
    simp only [deserialize_any]
    rw [if_pos hd]
  · rfl
  · intro c2 hc2
    simp only [deserialize_any]
    rw [if_pos (show True from trivial), if_pos hc2,
      if_neg (show ¬(48 ≤ 105 ∧ 105 ≤ 57) by omega)]
  · rfl
  · rfl
  · intro h1 h2 h3 h4
    simp only [deserialize_any]
    rw [if_neg h1, if_neg h2, if_neg h3, if_neg h4]

/-- Witness for C9 at concrete inputs: `3` (digit path, here `EOF` since
the length never terminates), `i5` (unsigned path, `EOF` at the missing
`e`) and `x` (`UnknownType`). -/
theorem c9_dispatch_witness :
    deserialize_any 1 [51] = Except.error Error.EOF ∧
      deserialize_any 1 [105, 53] = Except.error Error.EOF ∧
      deserialize_any 1 [120] = Except.error Error.UnknownType :=
  ⟨(c9_dispatch 0 51 []).1 (by norm_num),
   (c9_dispatch 0 53 [53]).2.2.1 53 (by norm_num),
   (c9_dispatch 0 120 []).2.2.2.2.2 (by norm_num) (by norm_num) (by norm_num)
     (by norm_num)⟩

/-! ## Prefix stability: a successful parse is unaffected by appending
bytes after the consumed prefix -/

theorem parse_unsigned_core_extend (term : Nat) (err : Error) (max : Nat)
    (hterm : ¬(48 ≤ term ∧ term ≤ 57)) :
    ∀ bs acc (first : Bool) n rest suf,
    parse_unsigned_core term err max acc first bs = Except.ok (n, rest) →
    parse_unsigned_core term err max acc first (bs ++ suf) = Except.ok (n, rest ++ suf) := by
  intro bs
  induction bs with
  | nil =>
    intro acc first n rest suf h
    rw [pu_nil] at h
    exact Except.noConfusion h
  | cons ch tl ih =>
    intro acc first n rest suf h
    by_cases hd : 49 ≤ ch ∧ ch ≤ 57
    · rw [pu_digit hd.1 hd.2] at h
      by_cases hov1 : max < acc * 10
      · rw [if_pos hov1] at h
        exact Except.noConfusion h
      · rw [if_neg hov1] at h
        by_cases hov2 : max < acc * 10 + (ch - 48)
        · rw [if_pos hov2] at h
          exact Except.noConfusion h
        · rw [if_neg hov2] at h
          rw [List.cons_append, pu_digit hd.1 hd.2, if_neg hov1, if_neg hov2]
          exact ih _ _ _ _ _ h
    · by_cases h48 : ch = 48
      · subst h48
        cases tl with
        | nil =>
          rw [pu_zero_nil] at h
          exact Except.noConfusion h
        | cons next tl2 =>
          rw [pu_zero_cons] at h
          by_cases hcond : next ≠ term ∧ first = true
          · rw [if_pos hcond] at h
            exact Except.noConfusion h
          · rw [if_neg hcond] at h
            by_cases hov : max < acc * 10
            · rw [if_pos hov] at h
              exact Except.noConfusion h
            · rw [if_neg hov] at h
              rw [List.cons_append, List.cons_append, pu_zero_cons, if_neg hcond,
                if_neg hov]
              exact ih _ _ _ _ _ h
      · by_cases hterm2 : ch = term
        · subst hterm2
          rw [pu_term hterm] at h
          by_cases hf : first = true
          · rw [if_pos hf] at h
            exact Except.noConfusion h
          · rw [if_neg hf] at h
            injection h with hp
            injection hp with h1 h2
            subst h1
            subst h2
            rw [List.cons_append, pu_term hterm, if_neg hf]
        · rw [pu_other (show ¬(48 ≤ ch ∧ ch ≤ 57) by omega) hterm2] at h
          exact Except.noConfusion h

theorem parse_signed_extend (max : Nat) :
    ∀ bs acc (first neg : Bool) v rest suf,
    parse_signed max acc first neg bs = Except.ok (v, rest) →
    parse_signed max acc first neg (bs ++ suf) = Except.ok (v, rest ++ suf) := by
  intro bs
  induction bs with
  | nil =>
    intro acc first neg v rest suf h
    rw [ps_nil] at h
    exact Except.noConfusion h
  | cons ch tl ih =>
    intro acc first neg v rest suf h
    by_cases hd : 49 ≤ ch ∧ ch ≤ 57
    · rw [ps_digit hd.1 hd.2] at h
      by_cases hov1 : max < acc * 10
      · rw [if_pos hov1] at h
        exact Except.noConfusion h
      · rw [if_neg hov1] at h
        by_cases hov2 : max < acc * 10 + (ch - 48)
        · rw [if_pos hov2] at h
          exact Except.noConfusion h
        · rw [if_neg hov2] at h
          rw [List.cons_append, ps_digit hd.1 hd.2, if_neg hov1, if_neg hov2]
          exact ih _ _ _ _ _ _ h
    · by_cases h48 : ch = 48
      · subst h48
        cases tl with
        | nil =>
          rw [ps_zero_nil] at h
          exact Except.noConfusion h
        | cons next tl2 =>
          rw [ps_zero_cons] at h
          by_cases hcond : next ≠ 101 ∧ first = true
          · rw [if_pos hcond] at h
            exact Except.noConfusion h
          · rw [if_neg hcond] at h
            by_cases hov : max < acc * 10
            · rw [if_pos hov] at h
              exact Except.noConfusion h
            · rw [if_neg hov] at h
              rw [List.cons_append, List.cons_append, ps_zero_cons, if_neg hcond,
                if_neg hov]
              exact ih _ _ _ _ _ _ h
      · by_cases h45 : ch = 45
        · subst h45
          cases tl with
          | nil =>
            rw [ps_minus_nil] at h
            exact Except.noConfusion h
          | cons next tl2 =>
            rw [ps_minus_cons] at h
            by_cases hcond : next = 48 ∨ next = 101 ∨ ¬first = true
            · rw [if_pos hcond] at h
              exact Except.noConfusion h
            · rw [if_neg hcond] at h
              rw [List.cons_append, List.cons_append, ps_minus_cons, if_neg hcond]
              exact ih _ _ _ _ _ _ h
        · by_cases h101 : ch = 101
          · subst h101
            rw [ps_term] at h
            by_cases hf : first = true
            · rw [if_pos hf] at h
              exact Except.noConfusion h
            · rw [if_neg hf] at h
              injection h with hp
              injection hp with h1 h2
              subst h1
              subst h2
              rw [List.cons_append, ps_term, if_neg hf]
          · rw [ps_other (show ¬(48 ≤ ch ∧ ch ≤ 57) by omega) h45 h101] at h
            exact Except.noConfusion h

theorem nextBytesList_extend {k : Nat} {bs out rest suf : List Nat}
    (h : nextBytesList k bs = Except.ok (out, rest)) :
    nextBytesList k (bs ++ suf) = Except.ok (out, rest ++ suf) := by
  simp only [nextBytesList] at h ⊢
  by_cases hin : k < bs.length
  · rw [if_pos hin] at h
    injection h with hp
    injection hp with h1 h2
    subst h1
    subst h2
    rw [List.length_append, if_pos (by omega)]
    rw [List.take_append_of_le_length (by omega), List.drop_append_of_le_length (by omega)]
  · rw [if_neg hin] at h
    exact Except.noConfusion h

theorem parse_string_body_extend {L : Nat} {r s rest suf : List Nat}
    (h : parse_string_body L r = Except.ok (s, rest)) :
    parse_string_body L (r ++ suf) = Except.ok (s, rest ++ suf) := by
  simp only [parse_string_body] at h ⊢
  by_cases hL : 0 < L
  · rw [if_pos hL] at h ⊢
    cases hnb : nextBytesList (L - 1) r with
    | error e =>
      rw [hnb] at h
      exact Except.noConfusion h
    | ok p =>
      obtain ⟨bytes, r'⟩ := p
      rw [hnb] at h
      rw [nextBytesList_extend hnb]
      have h' : (if validUtf8 bytes = true then Except.ok (bytes, r')
          else Except.error Error.InvalidUnicodeCodePoint) = Except.ok (s, rest) := h
      show (if validUtf8 bytes = true then Except.ok (bytes, r' ++ suf)
        else Except.error Error.InvalidUnicodeCodePoint) = Except.ok (s, rest ++ suf)
      by_cases hvu : validUtf8 bytes = true
      · rw [if_pos hvu] at h'
        injection h' with hp
        injection hp with h1 h2
        subst h1
        subst h2
        rw [if_pos hvu]
      · rw [if_neg hvu] at h'
        exact Except.noConfusion h'
  · rw [if_neg hL] at h ⊢
    injection h with hp
    injection hp with h1 h2
    subst h1
    subst h2
    rfl

theorem parse_bytes_body_extend {L : Nat} {r s rest suf : List Nat}
    (h : parse_bytes_body L r = Except.ok (s, rest)) :
    parse_bytes_body L (r ++ suf) = Except.ok (s, rest ++ suf) := by
  simp only [parse_bytes_body] at h ⊢
  by_cases hL : 0 < L
  · rw [if_pos hL] at h ⊢
    exact nextBytesList_extend h
  · rw [if_neg hL] at h ⊢
    injection h with hp
    injection hp with h1 h2
    subst h1
    subst h2
    rfl

theorem parse_string_extend {bs s rest suf : List Nat}
    (h : parse_string bs = Except.ok (s, rest)) :
    parse_string (bs ++ suf) = Except.ok (s, rest ++ suf) := by
  simp only [parse_string] at h ⊢
  cases hlen : parse_string_length bs with
  | error e =>
    rw [hlen] at h
    exact Except.noConfusion h
  | ok p =>
    obtain ⟨L, r⟩ := p
    rw [hlen] at h
    have hlen' : parse_string_length (bs ++ suf) = Except.ok (L, r ++ suf) :=
      parse_unsigned_core_extend 58 Error.ExpectedStringIntegerLength (2 ^ 64 - 1)
        (by omega) bs 0 true L r suf hlen
    rw [hlen']
    exact parse_string_body_extend h

theorem parse_bytes_extend {bs s rest suf : List Nat}
    (h : parse_bytes bs = Except.ok (s, rest)) :
    parse_bytes (bs ++ suf) = Except.ok (s, rest ++ suf) := by
  simp only [parse_bytes] at h ⊢
  cases hlen : parse_string_length bs with
  | error e =>
    rw [hlen] at h
    exact Except.noConfusion h
  | ok p =>
    obtain ⟨L, r⟩ := p
    rw [hlen] at h
    have hlen' : parse_string_length (bs ++ suf) = Except.ok (L, r ++ suf) :=
      parse_unsigned_core_extend 58 Error.ExpectedStringIntegerLength (2 ^ 64 - 1)
        (by omega) bs 0 true L r suf hlen
    rw [hlen']
    exact parse_bytes_body_extend h

theorem deserialize_unsigned_extend {max : Nat} {bs : List Nat} {n : Nat}
    {rest suf : List Nat} (h : deserialize_unsigned max bs = Except.ok (n, rest)) :
    deserialize_unsigned max (bs ++ suf) = Except.ok (n, rest ++ suf) := by
  cases bs with
  | nil => exact Except.noConfusion h
  | cons ch tl =>
    by_cases hch : ch = 105
    · subst hch
      cases tl with
      | nil => exact Except.noConfusion h
      | cons next tl2 =>
        rw [deserialize_unsigned_i] at h
        by_cases h45 : next = 45
        · rw [if_pos h45] at h
          exact Except.noConfusion h
        · rw [if_neg h45] at h
          rw [List.cons_append, List.cons_append, deserialize_unsigned_i, if_neg h45]
          exact parse_unsigned_core_extend 101 Error.ExpectedUnsignedInteger max
            (by omega) (next :: tl2) 0 true n rest suf h
    · rw [show deserialize_unsigned max (ch :: tl) =
        (if ch = 105 then
          (match tl with
            | [] => Except.error Error.EOF
            | next :: _ =>
              if next = 45 then Except.error Error.ExpectedUnsignedInteger
              else parse_unsigned max tl)
          else Except.error Error.ExpectedUnsignedInteger) from rfl, if_neg hch] at h
      exact Except.noConfusion h

theorem deserialize_signed_extend {max : Nat} {bs : List Nat} {v : Int}
    {rest suf : List Nat} (h : deserialize_signed max bs = Except.ok (v, rest)) :
    deserialize_signed max (bs ++ suf) = Except.ok (v, rest ++ suf) := by
  cases bs with
  | nil => exact Except.noConfusion h
  | cons ch tl =>
    by_cases hch : ch = 105
    · subst hch
      rw [deserialize_signed_i] at h
      rw [List.cons_append, deserialize_signed_i]
      exact parse_signed_extend max tl 0 true false v rest suf h
    · rw [show deserialize_signed max (ch :: tl) =
        (if ch = 105 then parse_signed max 0 true false tl
          else Except.error Error.ExpectedInteger) from rfl, if_neg hch] at h
      exact Except.noConfusion h

theorem deserialize_str_extend {bs s rest suf : List Nat}
    (h : deserialize_str bs = Except.ok (s, rest)) :
    deserialize_str (bs ++ suf) = Except.ok (s, rest ++ suf) := by
  cases bs with
  | nil => exact Except.noConfusion h
  | cons ch tl =>
    rw [deserialize_str_cons] at h
    by_cases hd : 48 ≤ ch ∧ ch ≤ 57
    · rw [if_pos hd] at h
      rw [List.cons_append, deserialize_str_cons, if_pos hd]
      exact parse_string_extend h
    · rw [if_neg hd] at h
      exact Except.noConfusion h

theorem deserialize_bytes_extend {bs s rest suf : List Nat}
    (h : deserialize_bytes bs = Except.ok (s, rest)) :
    deserialize_bytes (bs ++ suf) = Except.ok (s, rest ++ suf) := by
  cases bs with
  | nil => exact Except.noConfusion h
  | cons ch tl =>
    rw [deserialize_bytes_cons] at h
    by_cases hd : 48 ≤ ch ∧ ch ≤ 57
    · rw [if_pos hd] at h
      rw [List.cons_append, deserialize_bytes_cons, if_pos hd]
      exact parse_bytes_extend h
    · rw [if_neg hd] at h
      exact Except.noConfusion h

/-! ## One-step equations for the self-describing parser family -/

theorem any_succ_digit {f c : Nat} {rest : List Nat} (hd : 48 ≤ c ∧ c ≤ 57) :
    deserialize_any (f + 1) (c :: rest) =
      (match deserialize_str (c :: rest) with
        | Except.ok (s, r) => Except.ok (BValue.str s, r)
        | Except.error e => Except.error e) := by
  simp only [deserialize_any]
  rw [if_pos hd]

theorem any_succ_i_minus {f : Nat} {rest : List Nat} :
    deserialize_any (f + 1) (105 :: 45 :: rest) =
      (match deserialize_signed (2 ^ 63 - 1) (105 :: 45 :: rest) with
        | Except.ok (v, r) => Except.ok (BValue.i64 v, r)
        | Except.error e => Except.error e) := rfl

theorem any_succ_i_other {f c2 : Nat} {rest : List Nat} (h : c2 ≠ 45) :
    deserialize_any (f + 1) (105 :: c2 :: rest) =
      (match deserialize_unsigned (2 ^ 64 - 1) (105 :: c2 :: rest) with
        | Except.ok (n, r) => Except.ok (BValue.u64 n, r)
        | Except.error e => Except.error e) := by
  simp only [deserialize_any]
  rw [if_pos (show True from trivial), if_pos h,
    if_neg (show ¬(48 ≤ 105 ∧ 105 ≤ 57) by omega)]

theorem any_succ_l {f : Nat} {rest : List Nat} :
    deserialize_any (f + 1) (108 :: rest) = deserialize_seq f (108 :: rest) := rfl

theorem any_succ_d {f : Nat} {rest : List Nat} :
    deserialize_any (f + 1) (100 :: rest) = deserialize_map f (100 :: rest) := rfl

theorem any_succ_other {f c : Nat} {rest : List Nat} (h1 : ¬(48 ≤ c ∧ c ≤ 57))
    (h2 : c ≠ 105) (h3 : c ≠ 108) (h4 : c ≠ 100) :
    deserialize_any (f + 1) (c :: rest) = Except.error Error.UnknownType := by
  simp only [deserialize_any]
  rw [if_neg h1, if_neg h2, if_neg h3, if_neg h4]

theorem seq_succ_l {f : Nat} {tl : List Nat} :
    deserialize_seq (f + 1) (108 :: tl) =
      (match seq_elements f tl with
        | Except.error e => Except.error e
        | Except.ok (elems, r) =>
          match r with
          | [] => Except.error Error.EOF
          | x :: r' =>
            if x ≠ 101 then Except.error Error.ExpectedListEnd
            else Except.ok (BValue.list elems, r')) := rfl

theorem seq_succ_other {f c : Nat} {tl : List Nat} (h : c ≠ 108) :
    deserialize_seq (f + 1) (c :: tl) = Except.error Error.ExpectedList := by
  simp only [deserialize_seq]
  rw [if_neg h]

theorem elems_succ_e {f : Nat} {tl : List Nat} :
    seq_elements (f + 1) (101 :: tl) = Except.ok ([], 101 :: tl) := rfl

theorem elems_succ_ne {f c : Nat} {tl : List Nat} (h : c ≠ 101) :
    seq_elements (f + 1) (c :: tl) =
      (match deserialize_any f (c :: tl) with
        | Except.error e => Except.error e
        | Except.ok (v, r) =>
          match seq_elements f r with
          | Except.error e => Except.error e
          | Except.ok (vs, r') => Except.ok (v :: vs, r')) := by
  simp only [seq_elements]
  rw [if_neg h]

theorem map_succ_d {f : Nat} {tl : List Nat} :
    deserialize_map (f + 1) (100 :: tl) =
      (match map_entries f tl with
        | Except.error e => Except.error e
        | Except.ok (entries, r) =>
          match r with
          | [] => Except.error Error.EOF
          | x :: r' =>
            if x ≠ 101 then Except.error Error.ExpectedDictionaryEnd
            else Except.ok (BValue.dict entries, r')) := rfl

theorem map_succ_other {f c : Nat} {tl : List Nat} (h : c ≠ 100) :
    deserialize_map (f + 1) (c :: tl) = Except.error Error.ExpectedDictionary := by
  simp only [deserialize_map]
  rw [if_neg h]

theorem entries_succ_e {f : Nat} {tl : List Nat} :
    map_entries (f + 1) (101 :: tl) = Except.ok ([], 101 :: tl) := rfl

theorem entries_succ_digit {f c : Nat} {tl : List Nat} (hne : c ≠ 101)
    (hd : 48 ≤ c ∧ c ≤ 57) :
    map_entries (f + 1) (c :: tl) =
      (match deserialize_str (c :: tl) with
        | Except.error e => Except.error e
        | Except.ok (k, r) =>
          match deserialize_any f r with
          | Except.error e => Except.error e
          | Except.ok (v, r') =>
            match map_entries f r' with
            | Except.error e => Except.error e
            | Except.ok (entries, r'') => Except.ok ((k, v) :: entries, r'')) := by
  simp only [map_entries]
  rw [if_neg hne, if_pos hd]

theorem entries_succ_other {f c : Nat} {tl : List Nat} (hne : c ≠ 101)
    (hd : ¬(48 ≤ c ∧ c ≤ 57)) :
    map_entries (f + 1) (c :: tl) = Except.error Error.ExpectedDictionaryKeyString := by
  simp only [map_entries]
  rw [if_neg hne, if_neg hd]

/-- Prefix stability for the whole self-describing parser family, by
induction on the fuel: a successful parse consumes a prefix and is
unchanged by bytes appended after it. -/
theorem any_family_extend : ∀ f : Nat,
    (∀ bs v rest suf, deserialize_any f bs = Except.ok (v, rest) →
      deserialize_any f (bs ++ suf) = Except.ok (v, rest ++ suf)) ∧
    (∀ bs v rest suf, deserialize_seq f bs = Except.ok (v, rest) →
      deserialize_seq f (bs ++ suf) = Except.ok (v, rest ++ suf)) ∧
    (∀ bs vs rest suf, seq_elements f bs = Except.ok (vs, rest) →
      seq_elements f (bs ++ suf) = Except.ok (vs, rest ++ suf)) ∧
    (∀ bs v rest suf, deserialize_map f bs = Except.ok (v, rest) →
      deserialize_map f (bs ++ suf) = Except.ok (v, rest ++ suf)) ∧
    (∀ bs es rest suf, map_entries f bs = Except.ok (es, rest) →
      map_entries f (bs ++ suf) = Except.ok (es, rest ++ suf)) := by
  intro f
  induction f with
  | zero =>
    refine ⟨?_, ?_, ?_, ?_, ?_⟩ <;> exact fun bs v rest suf h => Except.noConfusion h
  | succ f ih =>
    obtain ⟨ihA, ihS, ihE, ihM, ihEn⟩ := ih
    refine ⟨?_, ?_, ?_, ?_, ?_⟩
    · intro bs v rest suf h
      cases bs with
      | nil => exact Except.noConfusion h
      | cons c tl =>
        by_cases hd : 48 ≤ c ∧ c ≤ 57
        · rw [any_succ_digit hd] at h
          cases hs : deserialize_str (c :: tl) with
          | error e =>
            rw [hs] at h
            exact Except.noConfusion h
          | ok p =>
            obtain ⟨s, r⟩ := p
            rw [hs] at h
            have h' : Except.ok (BValue.str s, r) = Except.ok (v, rest) := h
            injection h' with hp
            injection hp with h1 h2
            subst h1
            subst h2
            have hs' : deserialize_str ((c :: tl) ++ suf) = Except.ok (s, r ++ suf) :=
              deserialize_str_extend hs
            simp only [List.cons_append] at hs' ⊢
            rw [any_succ_digit hd, hs']
        · by_cases hc105 : c = 105
          · subst hc105
            cases tl with
            | nil => exact Except.noConfusion h
            | cons c2 tl2 =>
              by_cases h45 : c2 = 45
              · subst h45
                rw [any_succ_i_minus] at h
                cases hs : deserialize_signed (2 ^ 63 - 1) (105 :: 45 :: tl2) with
                | error e =>
                  rw [hs] at h
                  exact Except.noConfusion h
                | ok p =>
                  obtain ⟨vi, r⟩ := p
                  rw [hs] at h
                  have h' : Except.ok (BValue.i64 vi, r) = Except.ok (v, rest) := h
                  injection h' with hp
                  injection hp with h1 h2
                  subst h1
                  subst h2
                  have hs' : deserialize_signed (2 ^ 63 - 1) ((105 :: 45 :: tl2) ++ suf) =
                      Except.ok (vi, r ++ suf) := deserialize_signed_extend hs
                  simp only [List.cons_append] at hs' ⊢
                  rw [any_succ_i_minus, hs']
              · rw [any_succ_i_other h45] at h
                cases hs : deserialize_unsigned (2 ^ 64 - 1) (105 :: c2 :: tl2) with
                | error e =>
                  rw [hs] at h
                  exact Except.noConfusion h
                | ok p =>
                  obtain ⟨nu, r⟩ := p
                  rw [hs] at h
                  have h' : Except.ok (BValue.u64 nu, r) = Except.ok (v, rest) := h
                  injection h' with hp
                  injection hp with h1 h2
                  subst h1
                  subst h2
                  have hs' : deserialize_unsigned (2 ^ 64 - 1) ((105 :: c2 :: tl2) ++ suf) =
                      Except.ok (nu, r ++ suf) := deserialize_unsigned_extend hs
                  simp only [List.cons_append] at hs' ⊢
                  rw [any_succ_i_other h45, hs']
          · by_cases hc108 : c = 108
            · subst hc108
              rw [any_succ_l] at h
              have h2 := ihS (108 :: tl) v rest suf h
              simp only [List.cons_append] at h2 ⊢
              rw [any_succ_l]
              exact h2
            · by_cases hc100 : c = 100
              · subst hc100
                rw [any_succ_d] at h
                have h2 := ihM (100 :: tl) v rest suf h
                simp only [List.cons_append] at h2 ⊢
                rw [any_succ_d]
                exact h2
              · rw [any_succ_other hd hc105 hc108 hc100] at h
                exact Except.noConfusion h
    · intro bs v rest suf h
      cases bs with
      | nil => exact Except.noConfusion h
      | cons c tl =>
        by_cases hc : c = 108
        · subst hc
          rw [seq_succ_l] at h
          cases he : seq_elements f tl with
          | error e =>
            rw [he] at h
            exact Except.noConfusion h
          | ok p =>
            obtain ⟨elems, r⟩ := p
            rw [he] at h
            cases r with
            | nil => exact Except.noConfusion h
            | cons x r' =>
              have h' : (if x ≠ 101 then Except.error Error.ExpectedListEnd
                  else Except.ok (BValue.list elems, r')) = Except.ok (v, rest) := h
              by_cases hx : x ≠ 101
              · rw [if_pos hx] at h'
                exact Except.noConfusion h'
              · rw [if_neg hx] at h'
                injection h' with hp
                injection hp with h1 h2
                subst h1
                subst h2
                have he' : seq_elements f (tl ++ suf) = Except.ok (elems, (x :: r') ++ suf) :=
                  ihE tl elems (x :: r') suf he
                simp only [List.cons_append] at he' ⊢
                rw [seq_succ_l, he']
                show (if x ≠ 101 then Except.error Error.ExpectedListEnd
                  else Except.ok (BValue.list elems, r' ++ suf)) = _
                rw [if_neg hx]
        · rw [seq_succ_other hc] at h
          exact Except.noConfusion h
    · intro bs vs rest suf h
      cases bs with
      | nil => exact Except.noConfusion h
      | cons c tl =>
        by_cases hc : c = 101
        · subst hc
          rw [elems_succ_e] at h
          injection h with hp
          injection hp with h1 h2
          subst h1
          subst h2
          rfl
        · rw [elems_succ_ne hc] at h
          cases ha : deserialize_any f (c :: tl) with
          | error e =>
            rw [ha] at h
            exact Except.noConfusion h
          | ok p =>
            obtain ⟨v0, r⟩ := p
            rw [ha] at h
            have hm : (match seq_elements f r with
              | Except.error e => Except.error e
              | Except.ok (vs, r') => Except.ok (v0 :: vs, r')) = Except.ok (vs, rest) := h
            cases he : seq_elements f r with
            | error e =>
              rw [he] at hm
              exact Except.noConfusion hm
            | ok q =>
              obtain ⟨vs0, r'⟩ := q
              rw [he] at hm
              have h' : Except.ok (v0 :: vs0, r') = Except.ok (vs, rest) := hm
              injection h' with hp
              injection hp with h1 h2
              subst h1
              subst h2
              have ha' : deserialize_any f ((c :: tl) ++ suf) = Except.ok (v0, r ++ suf) :=
                ihA _ _ _ _ ha
              have he' : seq_elements f (r ++ suf) = Except.ok (vs0, r' ++ suf) :=
                ihE _ _ _ _ he
              simp only [List.cons_append] at ha' ⊢
              rw [elems_succ_ne hc, ha']
              show (match seq_elements f (r ++ suf) with
                | Except.error e => Except.error e
                | Except.ok (vs, r') => Except.ok (v0 :: vs, r')) =
                  Except.ok (v0 :: vs0, r' ++ suf)
              rw [he']
    · intro bs v rest suf h
      cases bs with
      | nil => exact Except.noConfusion h
      | cons c tl =>
        by_cases hc : c = 100
        · subst hc
          rw [map_succ_d] at h
          cases he : map_entries f tl with
          | error e =>
            rw [he] at h
            exact Except.noConfusion h
          | ok p =>
            obtain ⟨entries, r⟩ := p
            rw [he] at h
            cases r with
            | nil => exact Except.noConfusion h
            | cons x r' =>
              have h' : (if x ≠ 101 then Except.error Error.ExpectedDictionaryEnd
                  else Except.ok (BValue.dict entries, r')) = Except.ok (v, rest) := h
              by_cases hx : x ≠ 101
              · rw [if_pos hx] at h'
                exact Except.noConfusion h'
              · rw [if_neg hx] at h'
                injection h' with hp
                injection hp with h1 h2
                subst h1
                subst h2
                have he' : map_entries f (tl ++ suf) = Except.ok (entries, (x :: r') ++ suf) :=
                  ihEn tl entries (x :: r') suf he
                simp only [List.cons_append] at he' ⊢
                rw [map_succ_d, he']
                show (if x ≠ 101 then Except.error Error.ExpectedDictionaryEnd
                  else Except.ok (BValue.dict entries, r' ++ suf)) = _
                rw [if_neg hx]
        · rw [map_succ_other hc] at h
          exact Except.noConfusion h
    · intro bs es rest suf h
      cases bs with
      | nil => exact Except.noConfusion h
      | cons c tl =>
        by_cases hc : c = 101
        · subst hc
          rw [entries_succ_e] at h
          injection h with hp
          injection hp with h1 h2
          subst h1
          subst h2
          rfl
        · by_cases hd : 48 ≤ c ∧ c ≤ 57
          · rw [entries_succ_digit hc hd] at h
            cases hk : deserialize_str (c :: tl) with
            | error e =>
              rw [hk] at h
              exact Except.noConfusion h
            | ok p =>
              obtain ⟨k, r⟩ := p
              rw [hk] at h
              have hm : (match deserialize_any f r with
                | Except.error e => Except.error e
                | Except.ok (v, r') =>
                  match map_entries f r' with
                  | Except.error e => Except.error e
                  | Except.ok (entries, r'') => Except.ok ((k, v) :: entries, r'')) =
                  Except.ok (es, rest) := h
              cases ha : deserialize_any f r with
              | error e =>
                rw [ha] at hm
                exact Except.noConfusion hm
              | ok q =>
                obtain ⟨v0, r'⟩ := q
                rw [ha] at hm
                have hm2 : (match map_entries f r' with
                  | Except.error e => Except.error e
                  | Except.ok (entries, r'') => Except.ok ((k, v0) :: entries, r'')) =
                    Except.ok (es, rest) := hm
                cases he : map_entries f r' with
                | error e =>
                  rw [he] at hm2
                  exact Except.noConfusion hm2
                | ok q2 =>
                  obtain ⟨es0, r''⟩ := q2
                  rw [he] at hm2
                  have h' : Except.ok ((k, v0) :: es0, r'') = Except.ok (es, rest) := hm2
                  injection h' with hp
                  injection hp with h1 h2
                  subst h1
                  subst h2
                  have hk' : deserialize_str ((c :: tl) ++ suf) = Except.ok (k, r ++ suf) :=
                    deserialize_str_extend hk
                  have ha' : deserialize_any f (r ++ suf) = Except.ok (v0, r' ++ suf) :=
                    ihA _ _ _ _ ha
                  have he' : map_entries f (r' ++ suf) = Except.ok (es0, r'' ++ suf) :=
                    ihEn _ _ _ _ he
                  simp only [List.cons_append] at hk' ⊢
                  rw [entries_succ_digit hc hd, hk']
                  show (match deserialize_any f (r ++ suf) with
                    | Except.error e => Except.error e
                    | Except.ok (v, r') =>
                      match map_entries f r' with
                      | Except.error e => Except.error e
                      | Except.ok (entries, r'') => Except.ok ((k, v) :: entries, r'')) =
                      Except.ok ((k, v0) :: es0, r'' ++ suf)
                  rw [ha']
                  show (match map_entries f (r' ++ suf) with
                    | Except.error e => Except.error e
                    | Except.ok (entries, r'') => Except.ok ((k, v0) :: entries, r'')) =
                      Except.ok ((k, v0) :: es0, r'' ++ suf)
                  rw [he']
          · rw [entries_succ_other hc hd] at h
            exact Except.noConfusion h

/-- Fuel monotonicity for the self-describing parser family: a parse
that succeeds with some fuel succeeds identically with any larger
fuel. -/
theorem any_family_mono : ∀ f : Nat,
    (∀ f' : Nat, f ≤ f' → ∀ bs v rest, deserialize_any f bs = Except.ok (v, rest) →
      deserialize_any f' bs = Except.ok (v, rest)) ∧
    (∀ f' : Nat, f ≤ f' → ∀ bs v rest, deserialize_seq f bs = Except.ok (v, rest) →
      deserialize_seq f' bs = Except.ok (v, rest)) ∧
    (∀ f' : Nat, f ≤ f' → ∀ bs vs rest, seq_elements f bs = Except.ok (vs, rest) →
      seq_elements f' bs = Except.ok (vs, rest)) ∧
    (∀ f' : Nat, f ≤ f' → ∀ bs v rest, deserialize_map f bs = Except.ok (v, rest) →
      deserialize_map f' bs = Except.ok (v, rest)) ∧
    (∀ f' : Nat, f ≤ f' → ∀ bs es rest, map_entries f bs = Except.ok (es, rest) →
      map_entries f' bs = Except.ok (es, rest)) := by
  intro f
  induction f with
  | zero =>
    refine ⟨?_, ?_, ?_, ?_, ?_⟩ <;> exact fun f' _ bs v rest h => Except.noConfusion h
  | succ f ih =>
    obtain ⟨ihA, ihS, ihE, ihM, ihEn⟩ := ih
    refine ⟨?_, ?_, ?_, ?_, ?_⟩
    · intro f' hf bs v rest h
      cases f' with
      | zero => exact absurd hf (by omega)
      | succ f2 =>
        have hf2 : f ≤ f2 := by omega
        cases bs with
        | nil => exact Except.noConfusion h
        | cons c tl =>
          by_cases hd : 48 ≤ c ∧ c ≤ 57
          · rw [any_succ_digit hd] at h
            rw [any_succ_digit hd]
            exact h
          · by_cases hc105 : c = 105
            · subst hc105
              cases tl with
              | nil => exact Except.noConfusion h
              | cons c2 tl2 =>
                by_cases h45 : c2 = 45
                · subst h45
                  rw [any_succ_i_minus] at h
                  rw [any_succ_i_minus]
                  exact h
                · rw [any_succ_i_other h45] at h
                  rw [any_succ_i_other h45]
                  exact h
            · by_cases hc108 : c = 108
              · subst hc108
                rw [any_succ_l] at h
                rw [any_succ_l]
                exact ihS f2 hf2 _ _ _ h
              · by_cases hc100 : c = 100
                · subst hc100
                  rw [any_succ_d] at h
                  rw [any_succ_d]
                  exact ihM f2 hf2 _ _ _ h
                · rw [any_succ_other hd hc105 hc108 hc100] at h
                  exact Except.noConfusion h
    · intro f' hf bs v rest h
      cases f' with
      | zero => exact absurd hf (by omega)
      | succ f2 =>
        have hf2 : f ≤ f2 := by omega
        cases bs with
        | nil => exact Except.noConfusion h
        | cons c tl =>
          by_cases hc : c = 108
          · subst hc
            rw [seq_succ_l] at h
            cases he : seq_elements f tl with
            | error e =>
              rw [he] at h
              exact Except.noConfusion h
            | ok p =>
              obtain ⟨elems, r⟩ := p
              rw [he] at h
              cases r with
              | nil => exact Except.noConfusion h
              | cons x r' =>
                have h' : (if x ≠ 101 then Except.error Error.ExpectedListEnd
                    else Except.ok (BValue.list elems, r')) = Except.ok (v, rest) := h
                by_cases hx : x ≠ 101
                · rw [if_pos hx] at h'
                  exact Except.noConfusion h'
                · rw [if_neg hx] at h'
                  injection h' with hp
                  injection hp with h1 h2
                  subst h1
                  subst h2
                  rw [seq_succ_l, ihE f2 hf2 tl elems (x :: r') he]
                  show (if x ≠ 101 then Except.error Error.ExpectedListEnd
                    else Except.ok (BValue.list elems, r')) = _
                  rw [if_neg hx]
          · rw [seq_succ_other hc] at h
            exact Except.noConfusion h
    · intro f' hf bs vs rest h
      cases f' with
      | zero => exact absurd hf (by omega)
      | succ f2 =>
        have hf2 : f ≤ f2 := by omega
        cases bs with
        | nil => exact Except.noConfusion h
        | cons c tl =>
          by_cases hc : c = 101
          · subst hc
            rw [elems_succ_e] at h
            injection h with hp
            injection hp with h1 h2
            subst h1
            subst h2
            rfl
          · rw [elems_succ_ne hc] at h
            cases ha : deserialize_any f (c :: tl) with
            | error e =>
              rw [ha] at h
              exact Except.noConfusion h
            | ok p =>
              obtain ⟨v0, r⟩ := p
              rw [ha] at h
              have hm : (match seq_elements f r with
                | Except.error e => Except.error e
                | Except.ok (vs, r') => Except.ok (v0 :: vs, r')) = Except.ok (vs, rest) := h
              cases he : seq_elements f r with
              | error e =>
                rw [he] at hm
                exact Except.noConfusion hm
              | ok q =>
                obtain ⟨vs0, r'⟩ := q
                rw [he] at hm
                have h' : Except.ok (v0 :: vs0, r') = Except.ok (vs, rest) := hm
                injection h' with hp
                injection hp with h1 h2
                subst h1
                subst h2
                rw [elems_succ_ne hc, ihA f2 hf2 _ _ _ ha]
                show (match seq_elements f2 r with
                  | Except.error e => Except.error e
                  | Except.ok (vs, r') => Except.ok (v0 :: vs, r')) =
                    Except.ok (v0 :: vs0, r')
                rw [ihE f2 hf2 _ _ _ he]
    · intro f' hf bs v rest h
      cases f' with
      | zero => exact absurd hf (by omega)
      | succ f2 =>
        have hf2 : f ≤ f2 := by omega
        cases bs with
        | nil => exact Except.noConfusion h
        | cons c tl =>
          by_cases hc : c = 100
          · subst hc
            rw [map_succ_d] at h
            cases he : map_entries f tl with
            | error e =>
              rw [he] at h
              exact Except.noConfusion h
            | ok p =>
              obtain ⟨entries, r⟩ := p
              rw [he] at h
              cases r with
              | nil => exact Except.noConfusion h
              | cons x r' =>
                have h' : (if x ≠ 101 then Except.error Error.ExpectedDictionaryEnd
                    else Except.ok (BValue.dict entries, r')) = Except.ok (v, rest) := h
                by_cases hx : x ≠ 101
                · rw [if_pos hx] at h'
                  exact Except.noConfusion h'
                · rw [if_neg hx] at h'
                  injection h' with hp
                  injection hp with h1 h2
                  subst h1
                  subst h2
                  rw [map_succ_d, ihEn f2 hf2 tl entries (x :: r') he]
                  show (if x ≠ 101 then Except.error Error.ExpectedDictionaryEnd
                    else Except.ok (BValue.dict entries, r')) = _
                  rw [if_neg hx]
          · rw [map_succ_other hc] at h
            exact Except.noConfusion h
    · intro f' hf bs es rest h
      cases f' with
      | zero => exact absurd hf (by omega)
      | succ f2 =>
        have hf2 : f ≤ f2 := by omega
        cases bs with
        | nil => exact Except.noConfusion h
        | cons c tl =>
          by_cases hc : c = 101
          · subst hc
            rw [entries_succ_e] at h
            injection h with hp
            injection hp with h1 h2
            subst h1
            subst h2
            rfl
          · by_cases hd : 48 ≤ c ∧ c ≤ 57
            · rw [entries_succ_digit hc hd] at h
              cases hk : deserialize_str (c :: tl) with
              | error e =>
                rw [hk] at h
                exact Except.noConfusion h
              | ok p =>
                obtain ⟨k, r⟩ := p
                rw [hk] at h
                have hm : (match deserialize_any f r with
                  | Except.error e => Except.error e
                  | Except.ok (v, r') =>
                    match map_entries f r' with
                    | Except.error e => Except.error e
                    | Except.ok (entries, r'') => Except.ok ((k, v) :: entries, r'')) =
                    Except.ok (es, rest) := h
                cases ha : deserialize_any f r with
                | error e =>
                  rw [ha] at hm
                  exact Except.noConfusion hm
                | ok q =>
                  obtain ⟨v0, r'⟩ := q
                  rw [ha] at hm
                  have hm2 : (match map_entries f r' with
                    | Except.error e => Except.error e
                    | Except.ok (entries, r'') => Except.ok ((k, v0) :: entries, r'')) =
                      Except.ok (es, rest) := hm
                  cases he : map_entries f r' with
                  | error e =>
                    rw [he] at hm2
                    exact Except.noConfusion hm2
                  | ok q2 =>
                    obtain ⟨es0, r''⟩ := q2
                    rw [he] at hm2
                    have h' : Except.ok ((k, v0) :: es0, r'') = Except.ok (es, rest) := hm2
                    injection h' with hp
                    injection hp with h1 h2
                    subst h1
                    subst h2
                    rw [entries_succ_digit hc hd, hk]
                    show (match deserialize_any f2 r with
                      | Except.error e => Except.error e
                      | Except.ok (v, r') =>
                        match map_entries f2 r' with
                        | Except.error e => Except.error e
                        | Except.ok (entries, r'') => Except.ok ((k, v) :: entries, r'')) =
                        Except.ok ((k, v0) :: es0, r'')
                    rw [ihA f2 hf2 _ _ _ ha]
                    show (match map_entries f2 r' with
                      | Except.error e => Except.error e
                      | Except.ok (entries, r'') => Except.ok ((k, v0) :: entries, r'')) =
                        Except.ok ((k, v0) :: es0, r'')
                    rw [ihEn f2 hf2 _ _ _ he]
            · rw [entries_succ_other hc hd] at h
              exact Except.noConfusion h

/-! ## Progress: every successful parse consumes input

These lemmas feed the fuel-sufficiency proof for the self-describing
family: a successful `deserialize_any`/`deserialize_seq`/`deserialize_map`
strictly shortens the remaining input, and the element/entry loops never
lengthen it. -/

theorem parse_unsigned_core_consumes (term : Nat) (err : Error) (max : Nat) :
    ∀ (bs : List Nat) (acc : Nat) (first : Bool) (n : Nat) (rest : List Nat),
      parse_unsigned_core term err max acc first bs = Except.ok (n, rest) →
      rest.length < bs.length := by
  intro bs
  induction bs with
  | nil =>
    intro acc first n rest h
    rw [pu_nil] at h
    exact Except.noConfusion h
  | cons ch tl ih =>
    intro acc first n rest h
    rw [pu_cons] at h
    by_cases hd : 49 ≤ ch ∧ ch ≤ 57
    · rw [if_pos hd] at h
      by_cases h1 : max < acc * 10
      · rw [if_pos h1] at h
        exact Except.noConfusion h
      · rw [if_neg h1] at h
        by_cases h2 : max < acc * 10 + (ch - 48)
        · rw [if_pos h2] at h
          exact Except.noConfusion h
        · rw [if_neg h2] at h
          have h3 := ih _ _ _ _ h
          simp only [List.length_cons]
          omega
    · rw [if_neg hd] at h
      by_cases h48 : ch = 48
      · rw [if_pos h48] at h
        cases tl with
        | nil => exact Except.noConfusion h
        | cons next tail =>
          have h' : (if next ≠ term ∧ first then Except.error err
              else if max < acc * 10 then Except.error Error.IntegerOverflow
              else parse_unsigned_core term err max (acc * 10) false (next :: tail)) =
              Except.ok (n, rest) := h
          by_cases hnt : next ≠ term ∧ first
          · rw [if_pos hnt] at h'
            exact Except.noConfusion h'
          · rw [if_neg hnt] at h'
            by_cases h1 : max < acc * 10
            · rw [if_pos h1] at h'
              exact Except.noConfusion h'
            · rw [if_neg h1] at h'
              have h3 := ih _ _ _ _ h'
              simp only [List.length_cons] at h3 ⊢
              omega
      · rw [if_neg h48] at h
        by_cases hterm : ch = term
        · rw [if_pos hterm] at h
          cases first with
          | true =>
            rw [if_pos rfl] at h
            exact Except.noConfusion h
          | false =>
            rw [if_neg (by simp)] at h
            injection h with hp
            injection hp with h1 h2
            subst h2
            simp only [List.length_cons]
            omega
        · rw [if_neg hterm] at h
          exact Except.noConfusion h

theorem parse_signed_consumes (max : Nat) :
    ∀ (bs : List Nat) (acc : Nat) (first neg : Bool) (v : Int) (rest : List Nat),
      parse_signed max acc first neg bs = Except.ok (v, rest) →
      rest.length < bs.length := by
  intro bs
  induction bs with
  | nil =>
    intro acc first neg v rest h
    rw [ps_nil] at h
    exact Except.noConfusion h
  | cons ch tl ih =>
    intro acc first neg v rest h
    rw [ps_cons] at h
    by_cases hd : 49 ≤ ch ∧ ch ≤ 57
    · rw [if_pos hd] at h
      by_cases h1 : max < acc * 10
      · rw [if_pos h1] at h
        exact Except.noConfusion h
      · rw [if_neg h1] at h
        by_cases h2 : max < acc * 10 + (ch - 48)
        · rw [if_pos h2] at h
          exact Except.noConfusion h
        · rw [if_neg h2] at h
          have h3 := ih _ _ _ _ _ h
          simp only [List.length_cons]
          omega
    · rw [if_neg hd] at h
      by_cases h48 : ch = 48
      · rw [if_pos h48] at h
        cases tl with
        | nil => exact Except.noConfusion h
        | cons next tail =>
          have h' : (if next ≠ 101 ∧ first then Except.error Error.ExpectedInteger
              else if max < acc * 10 then Except.error Error.IntegerOverflow
              else parse_signed max (acc * 10) false neg (next :: tail)) =
              Except.ok (v, rest) := h
          by_cases hnt : next ≠ 101 ∧ first
          · rw [if_pos hnt] at h'
            exact Except.noConfusion h'
          · rw [if_neg hnt] at h'
            by_cases h1 : max < acc * 10
            · rw [if_pos h1] at h'
              exact Except.noConfusion h'
            · rw [if_neg h1] at h'
              have h3 := ih _ _ _ _ _ h'
              simp only [List.length_cons] at h3 ⊢
              omega
      · rw [if_neg h48] at h
        by_cases h45 : ch = 45
        · rw [if_pos h45] at h
          cases tl with
          | nil => exact Except.noConfusion h
          | cons next tail =>
            have h' : (if next = 48 ∨ next = 101 ∨ ¬first
                then Except.error Error.ExpectedInteger
                else parse_signed max acc false true (next :: tail)) =
                Except.ok (v, rest) := h
            by_cases hng : next = 48 ∨ next = 101 ∨ ¬first
            · rw [if_pos hng] at h'
              exact Except.noConfusion h'
            · rw [if_neg hng] at h'
              have h3 := ih _ _ _ _ _ h'
              simp only [List.length_cons] at h3 ⊢
              omega
        · rw [if_neg h45] at h
          by_cases h101 : ch = 101
          · rw [if_pos h101] at h
            cases first with
            | true =>
              rw [if_pos rfl] at h
              exact Except.noConfusion h
            | false =>
              rw [if_neg (by simp)] at h
              injection h with hp
              injection hp with h1 h2
              subst h2
              simp only [List.length_cons]
              omega
          · rw [if_neg h101] at h
            exact Except.noConfusion h

theorem nextBytesList_consumes {k : Nat} {l out rest : List Nat}
    (h : nextBytesList k l = Except.ok (out, rest)) : rest.length < l.length := by
  simp only [nextBytesList] at h
  by_cases hk : k < l.length
  · rw [if_pos hk] at h
    injection h with hp
    injection hp with h1 h2
    subst h2
    simp only [List.length_drop]
    omega
  · rw [if_neg hk] at h
    exact Except.noConfusion h

theorem parse_string_body_consumes_le {L : Nat} {r s rest : List Nat}
    (h : parse_string_body L r = Except.ok (s, rest)) : rest.length ≤ r.length := by
  simp only [parse_string_body] at h
  by_cases hL : 0 < L
  · rw [if_pos hL] at h
    cases hn : nextBytesList (L - 1) r with
    | error e =>
      rw [hn] at h
      exact Except.noConfusion h
    | ok p =>
      obtain ⟨bytes, r2⟩ := p
      rw [hn] at h
      have h' : (if validUtf8 bytes then Except.ok (bytes, r2)
          else Except.error Error.InvalidUnicodeCodePoint) = Except.ok (s, rest) := h
      by_cases hu : validUtf8 bytes
      · rw [if_pos hu] at h'
        injection h' with hp
        injection hp with h1 h2
        subst h2
        exact Nat.le_of_lt (nextBytesList_consumes hn)
      · rw [if_neg hu] at h'
        exact Except.noConfusion h'
  · rw [if_neg hL] at h
    injection h with hp
    injection hp with h1 h2
    subst h2
    exact Nat.le_refl _

theorem parse_string_consumes {bs s rest : List Nat}
    (h : parse_string bs = Except.ok (s, rest)) : rest.length < bs.length := by
  simp only [parse_string] at h
  cases hl : parse_string_length bs with
  | error e =>
    rw [hl] at h
    exact Except.noConfusion h
  | ok p =>
    obtain ⟨L, r⟩ := p
    rw [hl] at h
    have h' : parse_string_body L r = Except.ok (s, rest) := h
    have h1 : r.length < bs.length :=
      parse_unsigned_core_consumes 58 Error.ExpectedStringIntegerLength (2 ^ 64 - 1)
        bs 0 true L r hl
    have h2 : rest.length ≤ r.length := parse_string_body_consumes_le h'
    omega

theorem deserialize_str_consumes {bs s rest : List Nat}
    (h : deserialize_str bs = Except.ok (s, rest)) : rest.length < bs.length := by
  cases bs with
  | nil => exact Except.noConfusion h
  | cons ch tl =>
    rw [deserialize_str_cons] at h
    by_cases hd : 48 ≤ ch ∧ ch ≤ 57
    · rw [if_pos hd] at h
      exact parse_string_consumes h
    · rw [if_neg hd] at h
      exact Except.noConfusion h

theorem deserialize_unsigned_consumes {max : Nat} {bs : List Nat} {n : Nat}
    {rest : List Nat} (h : deserialize_unsigned max bs = Except.ok (n, rest)) :
    rest.length < bs.length := by
  cases bs with
  | nil => exact Except.noConfusion h
  | cons ch tl =>
    by_cases hi : ch = 105
    · subst hi
      cases tl with
      | nil => exact Except.noConfusion h
      | cons c2 tl2 =>
        rw [deserialize_unsigned_i] at h
        by_cases h45 : c2 = 45
        · rw [if_pos h45] at h
          exact Except.noConfusion h
        · rw [if_neg h45] at h
          have h3 := parse_unsigned_core_consumes 101 Error.ExpectedUnsignedInteger max
            (c2 :: tl2) 0 true n rest h
          simp only [List.length_cons] at h3 ⊢
          omega
    · simp only [deserialize_unsigned] at h
      rw [if_neg hi] at h
      exact Except.noConfusion h

theorem deserialize_signed_consumes {max : Nat} {bs : List Nat} {v : Int}
    {rest : List Nat} (h : deserialize_signed max bs = Except.ok (v, rest)) :
    rest.length < bs.length := by
  cases bs with
  | nil => exact Except.noConfusion h
  | cons ch tl =>
    by_cases hi : ch = 105
    · subst hi
      rw [deserialize_signed_i] at h
      have h3 := parse_signed_consumes max tl 0 true false v rest h
      simp only [List.length_cons]
      omega
    · simp only [deserialize_signed] at h
      rw [if_neg hi] at h
      exact Except.noConfusion h

/-- Progress for the self-describing family, by induction on the fuel: a
successful `deserialize_any`, `deserialize_seq` or `deserialize_map`
consumes at least one byte, and the element/entry loops never lengthen
the remaining input. -/
theorem any_family_consumes : ∀ f : Nat,
    (∀ bs v rest, deserialize_any f bs = Except.ok (v, rest) →
      rest.length < bs.length) ∧
    (∀ bs v rest, deserialize_seq f bs = Except.ok (v, rest) →
      rest.length < bs.length) ∧
    (∀ bs vs rest, seq_elements f bs = Except.ok (vs, rest) →
      rest.length ≤ bs.length) ∧
    (∀ bs v rest, deserialize_map f bs = Except.ok (v, rest) →
      rest.length < bs.length) ∧
    (∀ bs es rest, map_entries f bs = Except.ok (es, rest) →
      rest.length ≤ bs.length) := by
  intro f
  induction f with
  | zero =>
    refine ⟨?_, ?_, ?_, ?_, ?_⟩ <;> exact fun bs v rest h => Except.noConfusion h
  | succ f ih =>
    obtain ⟨ihA, ihS, ihE, ihM, ihEn⟩ := ih
    refine ⟨?_, ?_, ?_, ?_, ?_⟩
    · intro bs v rest h
      cases bs with
      | nil => exact Except.noConfusion h
      | cons c tl =>
        by_cases hd : 48 ≤ c ∧ c ≤ 57
        · rw [any_succ_digit hd] at h
          cases hs : deserialize_str (c :: tl) with
          | error e =>
            rw [hs] at h
            exact Except.noConfusion h
          | ok p =>
            obtain ⟨s, r⟩ := p
            rw [hs] at h
            have h' : Except.ok (BValue.str s, r) = Except.ok (v, rest) := h
            injection h' with hp
            injection hp with h1 h2
            subst h2
            exact deserialize_str_consumes hs
        · by_cases hc105 : c = 105
          · subst hc105
            cases tl with
            | nil => exact Except.noConfusion h
            | cons c2 tl2 =>
              by_cases h45 : c2 = 45
              · subst h45
                rw [any_succ_i_minus] at h
                cases hs : deserialize_signed (2 ^ 63 - 1) (105 :: 45 :: tl2) with
                | error e =>
                  rw [hs] at h
                  exact Except.noConfusion h
                | ok p =>
                  obtain ⟨vi, r⟩ := p
                  rw [hs] at h
                  have h' : Except.ok (BValue.i64 vi, r) = Except.ok (v, rest) := h
                  injection h' with hp
                  injection hp with h1 h2
                  subst h2
                  exact deserialize_signed_consumes hs
              · rw [any_succ_i_other h45] at h
                cases hs : deserialize_unsigned (2 ^ 64 - 1) (105 :: c2 :: tl2) with
                | error e =>
                  rw [hs] at h
                  exact Except.noConfusion h
                | ok p =>
                  obtain ⟨nu, r⟩ := p
                  rw [hs] at h
                  have h' : Except.ok (BValue.u64 nu, r) = Except.ok (v, rest) := h
                  injection h' with hp
                  injection hp with h1 h2
                  subst h2
                  exact deserialize_unsigned_consumes hs
          · by_cases hc108 : c = 108
            · subst hc108
              rw [any_succ_l] at h
              exact ihS _ _ _ h
            · by_cases hc100 : c = 100
              · subst hc100
                rw [any_succ_d] at h
                exact ihM _ _ _ h
              · rw [any_succ_other hd hc105 hc108 hc100] at h
                exact Except.noConfusion h
    · intro bs v rest h
      cases bs with
      | nil => exact Except.noConfusion h
      | cons c tl =>
        by_cases hc : c = 108
        · subst hc
          rw [seq_succ_l] at h
          cases he : seq_elements f tl with
          | error e =>
            rw [he] at h
            exact Except.noConfusion h
          | ok p =>
            obtain ⟨elems, r⟩ := p
            rw [he] at h
            cases r with
            | nil => exact Except.noConfusion h
            | cons x r' =>
              have h' : (if x ≠ 101 then Except.error Error.ExpectedListEnd
                  else Except.ok (BValue.list elems, r')) = Except.ok (v, rest) := h
              by_cases hx : x ≠ 101
              · rw [if_pos hx] at h'
                exact Except.noConfusion h'
              · rw [if_neg hx] at h'
                injection h' with hp
                injection hp with h1 h2
                subst h2
                have h3 : (x :: r').length ≤ tl.length := ihE _ _ _ he
                simp only [List.length_cons] at h3 ⊢
                omega
        · rw [seq_succ_other hc] at h
          exact Except.noConfusion h
    · intro bs vs rest h
      cases bs with
      | nil => exact Except.noConfusion h
      | cons c tl =>
        by_cases hc : c = 101
        · subst hc
          rw [elems_succ_e] at h
          injection h with hp
          injection hp with h1 h2
          subst h2
          exact Nat.le_refl _
        · rw [elems_succ_ne hc] at h
          cases ha : deserialize_any f (c :: tl) with
          | error e =>
            rw [ha] at h
            exact Except.noConfusion h
          | ok p =>
            obtain ⟨v0, r⟩ := p
            rw [ha] at h
            have hm : (match seq_elements f r with
              | Except.error e => Except.error e
              | Except.ok (vs, r') => Except.ok (v0 :: vs, r')) = Except.ok (vs, rest) := h
            cases he : seq_elements f r with
            | error e =>
              rw [he] at hm
              exact Except.noConfusion hm
            | ok q =>
              obtain ⟨vs0, r'⟩ := q
              rw [he] at hm
              have h' : Except.ok (v0 :: vs0, r') = Except.ok (vs, rest) := hm
              injection h' with hp
              injection hp with h1 h2
              subst h2
              have hra : r.length < (c :: tl).length := ihA _ _ _ ha
              have hre : r'.length ≤ r.length := ihE _ _ _ he
              simp only [List.length_cons] at hra ⊢
              omega
    · intro bs v rest h
      cases bs with
      | nil => exact Except.noConfusion h
      | cons c tl =>
        by_cases hc : c = 100
        · subst hc
          rw [map_succ_d] at h
          cases he : map_entries f tl with
          | error e =>
            rw [he] at h
            exact Except.noConfusion h
          | ok p =>
            obtain ⟨entries, r⟩ := p
            rw [he] at h
            cases r with
            | nil => exact Except.noConfusion h
            | cons x r' =>
              have h' : (if x ≠ 101 then Except.error Error.ExpectedDictionaryEnd
                  else Except.ok (BValue.dict entries, r')) = Except.ok (v, rest) := h
              by_cases hx : x ≠ 101
              · rw [if_pos hx] at h'
                exact Except.noConfusion h'
              · rw [if_neg hx] at h'
                injection h' with hp
                injection hp with h1 h2
                subst h2
                have h3 : (x :: r').length ≤ tl.length := ihEn _ _ _ he
                simp only [List.length_cons] at h3 ⊢
                omega
        · rw [map_succ_other hc] at h
          exact Except.noConfusion h
    · intro bs es rest h
      cases bs with
      | nil => exact Except.noConfusion h
      | cons c tl =>
        by_cases hc : c = 101
        · subst hc
          rw [entries_succ_e] at h
          injection h with hp
          injection hp with h1 h2
          subst h2
          exact Nat.le_refl _
        · by_cases hd : 48 ≤ c ∧ c ≤ 57
          · rw [entries_succ_digit hc hd] at h
            cases hs : deserialize_str (c :: tl) with
            | error e =>
              rw [hs] at h
              exact Except.noConfusion h
            | ok p =>
              obtain ⟨k, r⟩ := p
              rw [hs] at h
              have hm : (match deserialize_any f r with
                | Except.error e => Except.error e
                | Except.ok (v, r') =>
                  match map_entries f r' with
                  | Except.error e => Except.error e
                  | Except.ok (entries, r'') => Except.ok ((k, v) :: entries, r'')) =
                  Except.ok (es, rest) := h
              cases ha : deserialize_any f r with
              | error e =>
                rw [ha] at hm
                exact Except.noConfusion hm
              | ok q =>
                obtain ⟨v0, r'⟩ := q
                rw [ha] at hm
                have hm2 : (match map_entries f r' with
                  | Except.error e => Except.error e
                  | Except.ok (entries, r'') => Except.ok ((k, v0) :: entries, r'')) =
                    Except.ok (es, rest) := hm
                cases he : map_entries f r' with
                | error e =>
                  rw [he] at hm2
                  exact Except.noConfusion hm2
                | ok q2 =>
                  obtain ⟨es0, r''⟩ := q2
                  rw [he] at hm2
                  have h' : Except.ok ((k, v0) :: es0, r'') = Except.ok (es, rest) := hm2
                  injection h' with hp
                  injection hp with h1 h2
                  subst h2
                  have hs3 : r.length < (c :: tl).length := deserialize_str_consumes hs
                  have ha3 : r'.length < r.length := ihA _ _ _ ha
                  have he3 : r''.length ≤ r'.length := ihEn _ _ _ he
                  simp only [List.length_cons] at hs3 ⊢
                  omega
          · rw [entries_succ_other hc hd] at h
            exact Except.noConfusion h

/-! ## Fuel sufficiency for the self-describing family

Each recursive call of the family burns one unit of fuel, and at most
three units are burnt per input byte consumed, so beyond
`3 * input.length + 1` the fuel has no influence on the result: the
fueled definitions compute the value of the code's terminating
recursion. -/

/-- One-step fuel stability: once the fuel covers three units per
remaining byte (plus the per-function slack), raising it by one does not
change the result of any member of the family. -/
theorem any_family_step : ∀ f : Nat,
    (∀ bs : List Nat, 3 * bs.length + 1 ≤ f →
      deserialize_any (f + 1) bs = deserialize_any f bs) ∧
    (∀ bs : List Nat, 3 * bs.length ≤ f →
      deserialize_seq (f + 1) bs = deserialize_seq f bs) ∧
    (∀ bs : List Nat, 3 * bs.length + 2 ≤ f →
      seq_elements (f + 1) bs = seq_elements f bs) ∧
    (∀ bs : List Nat, 3 * bs.length ≤ f →
      deserialize_map (f + 1) bs = deserialize_map f bs) ∧
    (∀ bs : List Nat, 3 * bs.length + 2 ≤ f →
      map_entries (f + 1) bs = map_entries f bs) := by
  intro f
  induction f with
  | zero =>
    refine ⟨?_, ?_, ?_, ?_, ?_⟩
    · intro bs h
      exact absurd h (by omega)
    · intro bs h
      cases bs with
      | nil => rfl
      | cons c tl => exact absurd h (by simp only [List.length_cons]; omega)
    · intro bs h
      exact absurd h (by omega)
    · intro bs h
      cases bs with
      | nil => rfl
      | cons c tl => exact absurd h (by simp only [List.length_cons]; omega)
    · intro bs h
      exact absurd h (by omega)
  | succ f ih =>
    obtain ⟨ihA, ihS, ihE, ihM, ihEn⟩ := ih
    refine ⟨?_, ?_, ?_, ?_, ?_⟩
    · intro bs hb
      cases bs with
      | nil => rfl
      | cons c tl =>
        by_cases hd : 48 ≤ c ∧ c ≤ 57
        · rw [any_succ_digit hd, any_succ_digit hd]
        · by_cases hc105 : c = 105
          · subst hc105
            cases tl with
            | nil => rfl
            | cons c2 tl2 =>
              by_cases h45 : c2 = 45
              · subst h45
                rw [any_succ_i_minus, any_succ_i_minus]
              · rw [any_succ_i_other h45, any_succ_i_other h45]
          · by_cases hc108 : c = 108
            · subst hc108
              rw [any_succ_l, any_succ_l]
              exact ihS (108 :: tl) (by simp only [List.length_cons] at hb ⊢; omega)
            · by_cases hc100 : c = 100
              · subst hc100
                rw [any_succ_d, any_succ_d]
                exact ihM (100 :: tl) (by simp only [List.length_cons] at hb ⊢; omega)
              · rw [any_succ_other hd hc105 hc108 hc100,
                  any_succ_other hd hc105 hc108 hc100]
    · intro bs hb
      cases bs with
      | nil => rfl
      | cons c tl =>
        by_cases hc : c = 108
        · subst hc
          rw [seq_succ_l, seq_succ_l]
          have he : seq_elements (f + 1) tl = seq_elements f tl :=
            ihE tl (by simp only [List.length_cons] at hb; omega)
          rw [he]
        · rw [seq_succ_other hc, seq_succ_other hc]
    · intro bs hb
      cases bs with
      | nil => rfl
      | cons c tl =>
        by_cases hc : c = 101
        · subst hc
          rfl
        · rw [elems_succ_ne hc, elems_succ_ne hc]
          have ha : deserialize_any (f + 1) (c :: tl) = deserialize_any f (c :: tl) :=
            ihA (c :: tl) (by simp only [List.length_cons] at hb ⊢; omega)
          rw [ha]
          cases hav : deserialize_any f (c :: tl) with
          | error e => rfl
          | ok p =>
            obtain ⟨v, r⟩ := p
            have hr : r.length < (c :: tl).length := (any_family_consumes f).1 _ _ _ hav
            show (match seq_elements (f + 1) r with
                | Except.error e => Except.error e
                | Except.ok (vs, r') => Except.ok (v :: vs, r')) =
              (match seq_elements f r with
                | Except.error e => Except.error e
                | Except.ok (vs, r') => Except.ok (v :: vs, r'))
            rw [ihE r (by simp only [List.length_cons] at hb hr; omega)]
    · intro bs hb
      cases bs with
      | nil => rfl
      | cons c tl =>
        by_cases hc : c = 100
        · subst hc
          rw [map_succ_d, map_succ_d]
          have he : map_entries (f + 1) tl = map_entries f tl :=
            ihEn tl (by simp only [List.length_cons] at hb; omega)
          rw [he]
        · rw [map_succ_other hc, map_succ_other hc]
    · intro bs hb
      cases bs with
      | nil => rfl
      | cons c tl =>
        by_cases hc : c = 101
        · subst hc
          rfl
        · by_cases hd : 48 ≤ c ∧ c ≤ 57
          · rw [entries_succ_digit hc hd, entries_succ_digit hc hd]
            cases hs : deserialize_str (c :: tl) with
            | error e => rfl
            | ok p =>
              obtain ⟨k, r⟩ := p
              have hrlen : r.length < (c :: tl).length := deserialize_str_consumes hs
              show (match deserialize_any (f + 1) r with
                  | Except.error e => Except.error e
                  | Except.ok (v, r') =>
                    match map_entries (f + 1) r' with
                    | Except.error e => Except.error e
                    | Except.ok (entries, r'') => Except.ok ((k, v) :: entries, r'')) =
                (match deserialize_any f r with
                  | Except.error e => Except.error e
                  | Except.ok (v, r') =>
                    match map_entries f r' with
                    | Except.error e => Except.error e
                    | Except.ok (entries, r'') => Except.ok ((k, v) :: entries, r''))
              have ha : deserialize_any (f + 1) r = deserialize_any f r :=
                ihA r (by simp only [List.length_cons] at hb hrlen; omega)
              rw [ha]
              cases hav : deserialize_any f r with
              | error e => rfl
              | ok q =>
                obtain ⟨v, r'⟩ := q
                have hr : r'.length < r.length := (any_family_consumes f).1 _ _ _ hav
                show (match map_entries (f + 1) r' with
                    | Except.error e => Except.error e
                    | Except.ok (entries, r'') => Except.ok ((k, v) :: entries, r'')) =
                  (match map_entries f r' with
                    | Except.error e => Except.error e
                    | Except.ok (entries, r'') => Except.ok ((k, v) :: entries, r''))
                rw [ihEn r' (by simp only [List.length_cons] at hb hrlen; omega)]
          · rw [entries_succ_other hc hd, entries_succ_other hc hd]

theorem any_fuel_add : ∀ (k f : Nat) (bs : List Nat), 3 * bs.length + 1 ≤ f →
    deserialize_any (f + k) bs = deserialize_any f bs := by
  intro k
  induction k with
  | zero =>
    intro f bs _
    rfl
  | succ k ih =>
    intro f bs hb
    exact ((any_family_step (f + k)).1 bs (by omega)).trans (ih f bs hb)

/-- Fuel sufficiency: beyond `3 * bs.length + 1` the fuel does not
influence `deserialize_any`, so `from_slice_any` computes the limit of
the fueled approximations — the value of the code's recursion. -/
theorem deserialize_any_fuel_sufficient (f : Nat) (bs : List Nat)
    (h : 3 * bs.length + 1 ≤ f) :
    deserialize_any f bs = deserialize_any (3 * bs.length + 1) bs := by
  have h2 := any_fuel_add (f - (3 * bs.length + 1)) (3 * bs.length + 1) bs (Nat.le_refl _)
  rw [show 3 * bs.length + 1 + (f - (3 * bs.length + 1)) = f by omega] at h2
  exact h2

theorem from_trait_ok_inv {α : Type} {p : List Nat → Except Error (α × List Nat)}
    {bs : List Nat} {v : α} (h : from_trait p bs = Except.ok v) :
    p bs = Except.ok (v, []) := by
  simp only [from_trait] at h
  cases hp : p bs with
  | error e =>
    rw [hp] at h
    exact Except.noConfusion h
  | ok q =>
    obtain ⟨v', rest⟩ := q
    rw [hp] at h
    have h' : (if rest = [] then Except.ok v'
        else Except.error Error.TrailingCharacters) = Except.ok v := h
    by_cases hr : rest = []
    · subst hr
      rw [if_pos rfl] at h'
      injection h' with hv
      subst hv
      rfl
    · rw [if_neg hr] at h'
      exact Except.noConfusion h'

theorem from_trait_trailing {α : Type} {p : List Nat → Except Error (α × List Nat)}
    {bs : List Nat} {x : α} {rest : List Nat} (h : p bs = Except.ok (x, rest))
    (hne : rest ≠ []) :
    from_trait p bs = Except.error Error.TrailingCharacters := by
  simp only [from_trait]
  rw [h]
  show (if rest = [] then Except.ok x else Except.error Error.TrailingCharacters) = _
  rw [if_neg hne]

/-- Claim C8 (confirmed): whenever `E` is a complete well-formed
encoding of the requested target (i.e. `from_slice` on `E` succeeds,
which requires the reader to be exactly at the end), appending any
non-empty suffix `S` makes the top-level decode fail with
`TrailingCharacters` — for the signed and unsigned integer targets of
any width, the string and byte-slice targets, and self-describing
decode. -/
theorem c8_trailing (E S : List Nat) (hS : S ≠ []) :
    (∀ (max : Nat) (v : Int), from_slice_signed max E = Except.ok v →
      from_slice_signed max (E ++ S) = Except.error Error.TrailingCharacters) ∧
    (∀ max n : Nat, from_slice_unsigned max E = Except.ok n →
      from_slice_unsigned max (E ++ S) = Except.error Error.TrailingCharacters) ∧
    (∀ s : List Nat, from_slice_str E = Except.ok s →
      from_slice_str (E ++ S) = Except.error Error.TrailingCharacters) ∧
    (∀ b : List Nat, from_slice_bytes E = Except.ok b →
      from_slice_bytes (E ++ S) = Except.error Error.TrailingCharacters) ∧
    (∀ v : BValue, from_slice_any E = Except.ok v →
      from_slice_any (E ++ S) = Except.error Error.TrailingCharacters) := by
  refine ⟨?_, ?_, ?_, ?_, ?_⟩
  · intro max v h
    have h1 := from_trait_ok_inv h
    have h2 : deserialize_signed max (E ++ S) = Except.ok (v, S) :=
      deserialize_signed_extend h1
    exact from_trait_trailing h2 hS
  · intro max n h
    have h1 := from_trait_ok_inv h
    have h2 : deserialize_unsigned max (E ++ S) = Except.ok (n, S) :=
      deserialize_unsigned_extend h1
    exact from_trait_trailing h2 hS
  · intro s h
    have h1 := from_trait_ok_inv h
    have h2 : deserialize_str (E ++ S) = Except.ok (s, S) :=
      deserialize_str_extend h1
    exact from_trait_trailing h2 hS
  · intro b h
    have h1 := from_trait_ok_inv h
    have h2 : deserialize_bytes (E ++ S) = Except.ok (b, S) :=
      deserialize_bytes_extend h1
    exact from_trait_trailing h2 hS
  · intro v h
    have h1 := from_trait_ok_inv h
    have h2 : deserialize_any (3 * E.length + 1) (E ++ S) = Except.ok (v, S) :=
      (any_family_extend (3 * E.length + 1)).1 E v [] S h1
    have h3 : deserialize_any (3 * (E ++ S).length + 1) (E ++ S) = Except.ok (v, S) :=
      (any_family_mono (3 * E.length + 1)).1 (3 * (E ++ S).length + 1)
        (by rw [List.length_append]; omega) (E ++ S) v S h2
    exact from_trait_trailing h3 hS

/-- Witness for C8 at the spec's own example `E = i123e` with suffix
`trailing`'s first byte `t`, and at the nested container `E = llee` (an
empty list inside a list, which self-describing decode accepts) with the
same suffix: both suffixed inputs fail with `TrailingCharacters`. -/
theorem c8_trailing_witness :
    from_slice_signed (2 ^ 63 - 1) ([105, 49, 50, 51, 101] ++ [116]) =
        Except.error Error.TrailingCharacters ∧
      from_slice_any [108, 108, 101, 101] =
        Except.ok (BValue.list [BValue.list []]) ∧
      from_slice_any ([108, 108, 101, 101] ++ [116]) =
        Except.error Error.TrailingCharacters :=
  ⟨(c8_trailing [105, 49, 50, 51, 101] [116] (by simp)).1 (2 ^ 63 - 1) 123 rfl,
   rfl,
   (c8_trailing [108, 108, 101, 101] [116] (by simp)).2.2.2.2
     (BValue.list [BValue.list []]) rfl⟩

end Bitrust
